import Mathlib

/-!
Verification of the Risk-style game server (`gameLogic.js` and the socket
handlers).  The JavaScript classes are embedded shallowly: JS numbers are
modelled as `JSNum` (a rational, `NaN`, or an infinity), mutation becomes
explicit state passing on `GameState`, `Math.random`-driven dice are an
oracle `Nat → Fin 6` (each die is `floor(random()*6)+1`, hence in `1..6`),
and the deck reshuffle is an oracle `List Card → List Card`.
-/

namespace RiskGame

/-- A JavaScript number: `NaN`, `±Infinity`, or a finite value (modelled as a
rational; every value a client can send through JSON and `Number(·)` is one
of these). -/
inductive JSNum where
  | nan : JSNum
  | posInf : JSNum
  | negInf : JSNum
  | num : ℚ → JSNum
deriving DecidableEq

/-- JS truthiness of a number: `0` and `NaN` are falsy. -/
def JSNum.truthy : JSNum → Bool
  | JSNum.nan => false
  | JSNum.num q => decide (q ≠ 0)
  | _ => true

/-- `x || y` on JS numbers. -/
def jsOr (x y : JSNum) : JSNum := if x.truthy then x else y

/-- `Math.max(1, x)` on JS numbers (`NaN` propagates). -/
def jsMax1 : JSNum → JSNum
  | JSNum.nan => JSNum.nan
  | JSNum.posInf => JSNum.posInf
  | JSNum.negInf => JSNum.num 1
  | JSNum.num q => JSNum.num (max 1 q)

/-- JS truthiness of a string: only `''` is falsy. -/
def strTruthy (s : String) : Bool := decide (s ≠ "")

/-- Truthiness of a nullable string (`null`/`undefined` and `''` are falsy). -/
def optStrTruthy : Option String → Bool
  | none => false
  | some s => strTruthy s

/-- The three troop-type tags plus the wild tag (`CARD_TYPES` / `WILD_TYPE`). -/
inductive CardType where
  | infantry : CardType
  | cavalry : CardType
  | artillery : CardType
  | wild : CardType
deriving DecidableEq

/-- `CARD_TYPES` (the non-wild tags, in source order). -/
def cardTypes : List CardType := [CardType.infantry, CardType.cavalry, CardType.artillery]

/-- A card as stored in the deck piles (no uid yet). -/
structure Card where
  territoryId : Option String
  territoryName : String
  type : CardType
deriving DecidableEq

/-- A card held in a hand: a base card plus the uid minted at draw time. -/
structure HandCard where
  card : Card
  uid : String
deriving DecidableEq

/-- The `CardDeck` piles plus the uid counter. -/
structure Deck where
  nextUid : ℕ
  drawPile : List Card
  discardPile : List Card
deriving DecidableEq

/-- A map territory (live state: owner and troops added to the catalog data). -/
structure Territory where
  id : String
  continent : String
  neighbors : List String
  ownerId : Option String
  troops : ℚ
deriving DecidableEq

/-- A continent record from `mapData.continents`. -/
structure ContinentRec where
  name : String
  bonus : ℚ
deriving DecidableEq

/-- A player (fields relevant to the game-state machine). -/
structure Player where
  id : String
  pool : ℚ
  ready : Bool
  hand : List HandCard
  conqueredThisTurn : Bool
deriving DecidableEq

/-- The `lastAttack` summary record. -/
structure AttackRecord where
  id : ℕ
  attackerId : String
  fromId : String
  toId : String
  attackTroopCount : ℚ
  attackerDice : List ℕ
  defenderDice : List ℕ
  attackerLosses : ℕ
  defenderLosses : ℕ
  conquered : Bool
  winnerId : Option String
deriving DecidableEq

/-- The `RiskGame` aggregate (match state), together with the immutable
`mapData.continents` catalog it reads. -/
structure GameState where
  players : List Player
  phase : String
  isFirstRound : Bool
  currentPlayerIndex : ℕ
  winnerId : Option String
  globalTradeInCount : ℕ
  pendingCardEarned : Option (String × HandCard)
  deck : Deck
  map : List Territory
  continents : List ContinentRec
  lastAttackId : ℕ
  lastAttack : Option AttackRecord
  battleHistory : List AttackRecord
deriving DecidableEq

/-- `getPlayer`: first player with the given id. -/
def GameState.getPlayer (s : GameState) (playerId : String) : Option Player :=
  s.players.find? (fun pl => pl.id = playerId)

/-- `getCurrentPlayer`: `players[currentPlayerIndex]`. -/
def GameState.getCurrentPlayer (s : GameState) : Option Player :=
  s.players.get? s.currentPlayerIndex

/-- `getTerritory`: first territory with the given id. -/
def GameState.getTerritory (s : GameState) (territoryId : String) : Option Territory :=
  s.map.find? (fun tr => tr.id = territoryId)

/-- Mutating the object returned by a `find` call: update the first territory
with the given id, leave the rest alone. -/
def updateFirstT (f : Territory → Territory) : List Territory → String → List Territory
  | [], _ => []
  | tr :: rest, tid =>
      if tr.id = tid then f tr :: rest else tr :: updateFirstT f rest tid

/-- Update the first player with the given id. -/
def updateFirstP (f : Player → Player) : List Player → String → List Player
  | [], _ => []
  | pl :: rest, pid =>
      if pl.id = pid then f pl :: rest else pl :: updateFirstP f rest pid

/-- `pushCapped`: append, then drop the oldest entry if over the cap. -/
def pushCapped (l : List AttackRecord) (e : AttackRecord) (cap : ℕ) : List AttackRecord :=
  let l2 := l ++ [e]
  if cap < l2.length then l2.drop 1 else l2

/-! ### Card economy (`getTradeInReward`, `isValidTradeSet`) -/

/-- `getTradeInReward(tradeNumber)`: `n = Math.max(1, Number(t) || 1)`, then
`2n+2` for `n ≤ 5`, else `15 + (n-6)*5`.  (`Infinity` falls through the else
branch and stays `Infinity`.) -/
def getTradeInReward (tradeNumber : JSNum) : JSNum :=
  match jsMax1 (jsOr tradeNumber (JSNum.num 1)) with
  | JSNum.num n => JSNum.num (if n ≤ 5 then 2 * n + 2 else 15 + (n - 6) * 5)
  | x => x

/-- `isValidTradeSet(cards)`: exactly 3 cards; all non-wild share a type, or
the number of the three types missing from the set is covered by wilds. -/
def isValidTradeSet (cards : List Card) : Bool :=
  if cards.length ≠ 3 then false
  else
    let wildCt := (cards.filter (fun c => c.type = CardType.wild)).length
    let nonWildTypes := (cards.filter (fun c => c.type ≠ CardType.wild)).map Card.type
    if nonWildTypes.length = 0 ∨ nonWildTypes.dedup.length = 1 then true
    else decide ((cardTypes.filter (fun ty => ¬ ty ∈ nonWildTypes)).length ≤ wildCt)

/-! ### Reinforcement math -/

/-- `getContinentBonus`: sum of the bonuses of the continents whose (nonempty)
territory sets are fully owned by the player. -/
def getContinentBonus (s : GameState) (playerId : String) : ℚ :=
  (s.continents.map (fun c =>
    let ts := s.map.filter (fun tr => tr.continent = c.name)
    if ts.length ≠ 0 ∧ ts.all (fun tr => tr.ownerId = some playerId) then c.bonus else 0)).sum

/-- `calculateReinforcements`: `max(3, floor(owned/3)) + continentBonus`. -/
def calculateReinforcements (s : GameState) (playerId : String) : ℚ :=
  let owned := s.map.filter (fun tr => tr.ownerId = some playerId)
  ((max 3 (owned.length / 3) : ℕ) : ℚ) + getContinentBonus s playerId

/-- `startNewRound`: every pool becomes that player's reinforcements; phase
`GLOBAL_REINFORCE`, cursor 0. -/
def startNewRound (s : GameState) : GameState :=
  { s with
    players := s.players.map (fun pl => { pl with pool := calculateReinforcements s pl.id }),
    phase := "GLOBAL_REINFORCE",
    currentPlayerIndex := 0 }

/-! ### Deck draw (used by `nextTurn`) -/

/-- `CardDeck.draw()`: reshuffle the discard pile in first if the draw pile is
empty, then pop the top card and mint it a uid.  The reshuffle permutation is
the oracle `osh`. -/
def deckDraw (osh : List Card → List Card) (d : Deck) : Option HandCard × Deck :=
  let d1 :=
    if d.drawPile.length = 0 ∧ d.discardPile.length ≠ 0 then
      { d with drawPile := osh d.discardPile, discardPile := [] }
    else d
  match d1.drawPile.getLast? with
  | none => (none, d1)
  | some c =>
      (some { card := c, uid := "card_" ++ toString d1.nextUid },
       { d1 with drawPile := d1.drawPile.dropLast, nextUid := d1.nextUid + 1 })

/-! ### Turn rollover -/

/-- `nextTurn`: clear the pending card notice, grant a card to a conqueror,
clear the conquest flag, advance the cursor; wrapping to 0 starts a new
reinforcement round. -/
def nextTurn (osh : List Card → List Card) (s : GameState) : GameState :=
  if s.players.length = 0 then { s with currentPlayerIndex := 0 }
  else
    let s1 := { s with pendingCardEarned := none }
    let s2 :=
      match s1.players.get? s1.currentPlayerIndex with
      | none => s1
      | some cp =>
          let s1b :=
            if cp.conqueredThisTurn then
              match deckDraw osh s1.deck with
              | (none, d2) => { s1 with deck := d2 }
              | (some card, d2) =>
                  { s1 with
                    deck := d2,
                    players := s1.players.set s1.currentPlayerIndex
                      { cp with hand := cp.hand ++ [card] },
                    pendingCardEarned := some (cp.id, card) }
            else s1
          match s1b.players.get? s1b.currentPlayerIndex with
          | none => s1b
          | some cp2 =>
              { s1b with
                players := s1b.players.set s1b.currentPlayerIndex
                  { cp2 with conqueredThisTurn := false } }
    let ni := (s2.currentPlayerIndex + 1) % s2.players.length
    if ni = 0 then startNewRound { s2 with currentPlayerIndex := 0, isFirstRound := false }
    else { s2 with currentPlayerIndex := ni, phase := "TURN_ATTACK" }

/-! ### Deploy -/

/-- The coerced deploy amount: `Math.max(1, Number(count) || 0)`. -/
def deployAmount (count : JSNum) : JSNum := jsMax1 (jsOr count (JSNum.num 0))

/-- The guarded core of `deploy`, up to and including the pool/troops
mutation (no winner; acting player exists and is the current player; the
territory exists and is theirs; the coerced amount fits in the pool). -/
def deployChecked (s : GameState) (playerId territoryId : String) (count : JSNum) :
    Option GameState :=
  if s.winnerId.isSome then none
  else
    match s.getPlayer playerId with
    | none => none
    | some player =>
        if (s.getCurrentPlayer.map Player.id) ≠ some playerId then none
        else
          match s.getTerritory territoryId with
          | none => none
          | some terr =>
              if terr.ownerId ≠ some playerId then none
              else
                match deployAmount count with
                | JSNum.num amt =>
                    if player.pool < amt then none
                    else
                      some { s with
                        map := updateFirstT
                          (fun tr => { tr with troops := tr.troops + amt }) s.map territoryId,
                        players := updateFirstP
                          (fun pl => { pl with pool := pl.pool - amt }) s.players playerId }
                | _ => none

/-- The phase-completion logic at the end of `deploy` (SETUP /
GLOBAL_REINFORCE cursor and phase advancement), run on the mutated state. -/
def deployFinish (s : GameState) (playerId : String) : GameState :=
  if s.phase = "SETUP" then
    if s.players.all (fun pl => pl.pool = 0) then
      if s.isFirstRound then
        { s with currentPlayerIndex := 0, phase := "TURN_ATTACK" }
      else startNewRound { s with currentPlayerIndex := 0 }
    else if (s.getPlayer playerId).map Player.pool = some 0 then
      { s with currentPlayerIndex := (s.currentPlayerIndex + 1) % s.players.length }
    else s
  else if s.phase = "GLOBAL_REINFORCE" then
    if (s.getPlayer playerId).map Player.pool = some 0 then
      let ni := (s.currentPlayerIndex + 1) % s.players.length
      if ni = 0 then { s with phase := "TURN_ATTACK", currentPlayerIndex := 0 }
      else { s with currentPlayerIndex := ni }
    else s
  else s

/-- `deploy(playerId, territoryId, count)`: guarded mutation, then the
phase-completion step.  `none` is the source's `return false`. -/
def deploy (s : GameState) (playerId territoryId : String) (count : JSNum) :
    Option GameState :=
  (deployChecked s playerId territoryId count).map (fun s1 => deployFinish s1 playerId)

/-! ### Attack -/

/-- `to.ownerId === NEUTRAL_ID`. -/
def isNeutralOwner (o : Option String) : Prop := o = some "neutral"

/-- `Boolean(to.ownerId) && to.ownerId !== playerId`. -/
def isEnemyOwner (o : Option String) (playerId : String) : Prop :=
  optStrTruthy o = true ∧ o ≠ some playerId

instance (o : Option String) : Decidable (isNeutralOwner o) := by
  unfold isNeutralOwner; infer_instance

instance (o : Option String) (p : String) : Decidable (isEnemyOwner o p) := by
  unfold isEnemyOwner; infer_instance

/-- `Array.from({length: q})`'s length (`ToLength`: truncate, clamp at 0). -/
def jsToLength (q : ℚ) : ℕ := (⌊q⌋).toNat

/-- Sort a list of die values descending (`.sort((a, b) => b - a)`). -/
def sortDesc (l : List ℕ) : List ℕ := l.insertionSort (fun a b => b ≤ a)

/-- `rollDice(count)` reading `count` dice from the random oracle starting at
stream position `off`: each die is `Math.floor(Math.random()*6)+1`, then the
list is sorted descending. -/
def rollDice (rng : ℕ → Fin 6) (off count : ℕ) : List ℕ :=
  sortDesc ((List.range count).map (fun i => (rng (off + i)).val + 1))

/-- The battle loop: one comparison per paired dice position; the defender
wins ties, so the attacker loses the pairs with `a ≤ d`. -/
def defenderLossCount (pairs : List (ℕ × ℕ)) : ℕ :=
  pairs.countP (fun pr => decide (pr.2 < pr.1))

/-- Attacker losses: the comparisons not won strictly by the attacker. -/
def attackerLossCount (pairs : List (ℕ × ℕ)) : ℕ :=
  pairs.countP (fun pr => decide (¬ pr.2 < pr.1))

/-- The result object returned by a resolved `attack`. -/
structure AttackResult where
  attackerDice : List ℕ
  defenderDice : List ℕ
  attackTroopCount : ℚ
  attackerLosses : ℕ
  defenderLosses : ℕ
  conquered : Bool
  winnerId : Option String
deriving DecidableEq

/-- `getPlayerTerritoryCount` on an explicit map. -/
def territoryCountOf (m : List Territory) (playerId : String) : ℕ :=
  (m.filter (fun tr => tr.ownerId = some playerId)).length

/-- `defenderDiceCount = (to.troops || 0) >= 2 ? 2 : 1`. -/
def attackDLen (to_ : Territory) : ℕ := if 2 ≤ to_.troops then 2 else 1

/-- The attacker's sorted roll (the first `⌊q⌋` dice of the stream). -/
def attackADice (rng : ℕ → Fin 6) (q : ℚ) : List ℕ := rollDice rng 0 (jsToLength q)

/-- The defender's sorted roll (the next dice of the stream). -/
def attackDDice (rng : ℕ → Fin 6) (q : ℚ) (to_ : Territory) : List ℕ :=
  rollDice rng (jsToLength q) (attackDLen to_)

/-- The paired comparisons (one per position, `min` of the two lengths). -/
def attackPairs (rng : ℕ → Fin 6) (q : ℚ) (to_ : Territory) : List (ℕ × ℕ) :=
  (attackADice rng q).zip (attackDDice rng q to_)

/-- `attackerLosses` accumulated by the comparison loop. -/
def attackALoss (rng : ℕ → Fin 6) (q : ℚ) (to_ : Territory) : ℕ :=
  attackerLossCount (attackPairs rng q to_)

/-- `defenderLosses` accumulated by the comparison loop. -/
def attackDLoss (rng : ℕ → Fin 6) (q : ℚ) (to_ : Territory) : ℕ :=
  defenderLossCount (attackPairs rng q to_)

/-- The map after `from.troops -= attackerLosses`. -/
def attackM1 (rng : ℕ → Fin 6) (m : List Territory) (fromId : String) (q : ℚ)
    (to_ : Territory) : List Territory :=
  updateFirstT (fun tr => { tr with troops := tr.troops - (attackALoss rng q to_ : ℚ) })
    m fromId

/-- The map after additionally `to.troops -= defenderLosses`. -/
def attackM2 (rng : ℕ → Fin 6) (m : List Territory) (fromId toId : String) (q : ℚ)
    (to_ : Territory) : List Territory :=
  updateFirstT (fun tr => { tr with troops := tr.troops - (attackDLoss rng q to_ : ℚ) })
    (attackM1 rng m fromId q to_) toId

/-- The mutated `to.troops` read back for the `if (to.troops <= 0)` check. -/
def attackToTroops2 (rng : ℕ → Fin 6) (m : List Territory) (fromId toId : String)
    (q : ℚ) (to_ : Territory) : ℚ :=
  (((attackM2 rng m fromId toId q to_).find? (fun tr => tr.id = toId)).map
      Territory.troops).getD (to_.troops - (attackDLoss rng q to_ : ℚ))

/-- `survivors = Math.max(0, requested - attackerLosses)`. -/
def attackSurvivors (rng : ℕ → Fin 6) (q : ℚ) (to_ : Territory) : ℚ :=
  max 0 (q - (attackALoss rng q to_ : ℚ))

/-- `moveCount = Math.max(1, survivors)`. -/
def attackMoveCount (rng : ℕ → Fin 6) (q : ℚ) (to_ : Territory) : ℚ :=
  max 1 (attackSurvivors rng q to_)

/-- The map after `from.troops -= moveCount` (conquest branch). -/
def attackM3 (rng : ℕ → Fin 6) (m : List Territory) (fromId toId : String) (q : ℚ)
    (to_ : Territory) : List Territory :=
  updateFirstT (fun tr => { tr with troops := tr.troops - attackMoveCount rng q to_ })
    (attackM2 rng m fromId toId q to_) fromId

/-- The map after the conquest transfer (`to.ownerId = attacker`,
`to.troops = moveCount`). -/
def attackM4 (rng : ℕ → Fin 6) (m : List Territory) (playerId fromId toId : String)
    (q : ℚ) (to_ : Territory) : List Territory :=
  updateFirstT
    (fun tr => { tr with ownerId := some playerId, troops := attackMoveCount rng q to_ })
    (attackM3 rng m fromId toId q to_) toId

/-- The `checkForWinner` result after a conquest. -/
def attackWinner (rng : ℕ → Fin 6) (m : List Territory) (playerId fromId toId : String)
    (q : ℚ) (to_ : Territory) : Option String :=
  if (attackM4 rng m playerId fromId toId q to_).length ≤
      territoryCountOf (attackM4 rng m playerId fromId toId q to_) playerId
  then some playerId else none

/-- The `lastAttack` record of a resolution. -/
def attackRec (rng : ℕ → Fin 6) (s : GameState) (playerId fromId toId : String) (q : ℚ)
    (to_ : Territory) (conq : Bool) (w : Option String) : AttackRecord :=
  { id := s.lastAttackId + 1, attackerId := playerId, fromId := fromId, toId := toId,
    attackTroopCount := q, attackerDice := attackADice rng q,
    defenderDice := attackDDice rng q to_,
    attackerLosses := attackALoss rng q to_, defenderLosses := attackDLoss rng q to_,
    conquered := conq, winnerId := w }

/-- The resolution part of `attack`, after all preconditions passed:
`q` is the (finite) requested dice count, `to_` the defending territory as
found.  Returns the new state and the result object. -/
def attackResolve (rng : ℕ → Fin 6) (s : GameState) (playerId fromId toId : String)
    (q : ℚ) (to_ : Territory) : GameState × AttackResult :=
  if attackToTroops2 rng s.map fromId toId q to_ ≤ 0 then
    ({ s with
        map := attackM4 rng s.map playerId fromId toId q to_,
        players := updateFirstP (fun pl => { pl with conqueredThisTurn := true })
          s.players playerId,
        winnerId := attackWinner rng s.map playerId fromId toId q to_,
        lastAttackId := s.lastAttackId + 1,
        lastAttack := some (attackRec rng s playerId fromId toId q to_ true
          (attackWinner rng s.map playerId fromId toId q to_)),
        battleHistory := pushCapped s.battleHistory
          (attackRec rng s playerId fromId toId q to_ true
            (attackWinner rng s.map playerId fromId toId q to_)) 50 },
     { attackerDice := attackADice rng q, defenderDice := attackDDice rng q to_,
       attackTroopCount := q, attackerLosses := attackALoss rng q to_,
       defenderLosses := attackDLoss rng q to_, conquered := true,
       winnerId := attackWinner rng s.map playerId fromId toId q to_ })
  else
    ({ s with
        map := attackM2 rng s.map fromId toId q to_,
        lastAttackId := s.lastAttackId + 1,
        lastAttack := some (attackRec rng s playerId fromId toId q to_ false none),
        battleHistory := pushCapped s.battleHistory
          (attackRec rng s playerId fromId toId q to_ false none) 50 },
     { attackerDice := attackADice rng q, defenderDice := attackDDice rng q to_,
       attackTroopCount := q, attackerLosses := attackALoss rng q to_,
       defenderLosses := attackDLoss rng q to_, conquered := false,
       winnerId := none })

/-- `attack(playerId, fromId, toId, attackTroopCount)`: the precondition
cascade (each failing check is a silent `return null`), then resolution. -/
def attack (rng : ℕ → Fin 6) (s : GameState) (playerId fromId toId : String)
    (attackTroopCount : JSNum) : Option (GameState × AttackResult) :=
  if s.winnerId.isSome then none
  else if s.phase ≠ "TURN_ATTACK" then none
  else if (s.getCurrentPlayer.map Player.id) ≠ some playerId then none
  else
    match s.getTerritory fromId, s.getTerritory toId with
    | some from_, some to_ =>
        if ¬ (from_.ownerId = some playerId ∧
              (isNeutralOwner to_.ownerId ∨ isEnemyOwner to_.ownerId playerId)) then none
        else if ¬ toId ∈ from_.neighbors then none
        else if from_.troops - 1 < 1 then none
        else
          match attackTroopCount with
          | JSNum.num q =>
              if q < 1 then none
              else if from_.troops - 1 < q then none
              else if 3 < q then none
              else some (attackResolve rng s playerId fromId toId q to_)
          | _ => none
    | _, _ => none

/-! ### Fortify connectivity (BFS over the owned-territory subgraph) -/

/-- The neighbor list of a territory id (`getTerritory(...).neighbors`,
`[]` when the territory is missing — the loop's `continue`). -/
def neighborsOf (m : List Territory) (tid : String) : List String :=
  match m.find? (fun tr => tr.id = tid) with
  | some tr => tr.neighbors
  | none => []

/-- The ids of the territories a player owns (`ownedIds`). -/
def ownedIdsOf (m : List Territory) (playerId : String) : List String :=
  (m.filter (fun tr => tr.ownerId = some playerId)).map Territory.id

/-- The inner `for` of the BFS: append each owned, unvisited neighbor to the
visited set and the queue. -/
def pushNbrs (ownedIds : List String) :
    List String → List String → List String → List String × List String
  | visited, queue, [] => (visited, queue)
  | visited, queue, n :: ns =>
      if n ∈ ownedIds ∧ ¬ n ∈ visited then
        pushNbrs ownedIds (n :: visited) (queue ++ [n]) ns
      else pushNbrs ownedIds visited queue ns

/-- The BFS `while` loop, with explicit fuel (the source loop terminates
because each enqueue consumes an unvisited owned id; `isConnected` passes
fuel provably larger than that bound). -/
def bfsLoop (ownedIds : List String) (m : List Territory) (toId : String) :
    ℕ → List String → List String → Bool
  | 0, _, _ => false
  | _ + 1, [], _ => false
  | fuel + 1, c :: rest, visited =>
      if c = toId then true
      else
        let vq := pushNbrs ownedIds visited rest (neighborsOf m c)
        bfsLoop ownedIds m toId fuel vq.2 vq.1

/-- `isConnected(playerId, fromId, toId)`: both endpoints owned, and the BFS
restricted to owned territories reaches `toId` from `fromId`.  (The fuel
`2·|map|+1` provably dominates the loop's decreasing measure, so the bounded
loop equals the source's unbounded `while`; see `isConnected_iff`.) -/
def isConnected (s : GameState) (playerId fromId toId : String) : Bool :=
  if fromId ∈ ownedIdsOf s.map playerId ∧ toId ∈ ownedIdsOf s.map playerId then
    bfsLoop (ownedIdsOf s.map playerId) s.map toId (2 * s.map.length + 1)
      [fromId] [fromId]
  else false

/-- One hop of a path through the player's owned subgraph: `y` is a neighbor
of `x` and is owned by the player. -/
def ownedStep (m : List Territory) (playerId : String) (x y : String) : Prop :=
  y ∈ neighborsOf m x ∧ y ∈ ownedIdsOf m playerId

/-- The specification-side notion of fortify connectivity: both endpoints
owned, joined by a path running exclusively through owned territories. -/
def OwnedConnected (m : List Territory) (playerId fromId toId : String) : Prop :=
  fromId ∈ ownedIdsOf m playerId ∧ toId ∈ ownedIdsOf m playerId ∧
    Relation.ReflTransGen (ownedStep m playerId) fromId toId

/-! ### Fortify -/

/-- The coerced fortify amount: `Math.max(1, Number(count) || 1)`. -/
def fortifyMove (count : JSNum) : JSNum := jsMax1 (jsOr count (JSNum.num 1))

/-- The troop movement of a fortify: `from.troops -= mc; to.troops += mc`. -/
def fortifyMoved (s : GameState) (fromId toId : String) (mc : ℚ) : GameState :=
  { s with
    map := updateFirstT
        (fun tr => { tr with troops := tr.troops + mc })
        (updateFirstT (fun tr => { tr with troops := tr.troops - mc }) s.map fromId)
        toId }

/-- `fortify(playerId, fromId, toId, count)`: guards, troop movement, then
`nextTurn`. -/
def fortify (osh : List Card → List Card) (s : GameState) (playerId fromId toId : String)
    (count : JSNum) : Option GameState :=
  if s.winnerId.isSome then none
  else if s.phase ≠ "TURN_FORTIFY" then none
  else if (s.getCurrentPlayer.map Player.id) ≠ some playerId then none
  else if strTruthy fromId = false ∨ strTruthy toId = false ∨ fromId = toId then none
  else
    match s.getTerritory fromId, s.getTerritory toId with
    | some from_, some to_ =>
        if from_.ownerId ≠ some playerId ∨ to_.ownerId ≠ some playerId then none
        else if isConnected s playerId fromId toId = false then none
        else
          match fortifyMove count with
          | JSNum.num mc =>
              if from_.troops ≤ mc then none
              else some (nextTurn osh (fortifyMoved s fromId toId mc))
          | _ => none
    | _, _ => none

/-! ### Battle arbitration session (`commit_roll` handler) -/

/-- The `activeBattle` record of the real-time server. -/
structure Battle where
  battleId : String
  attackerId : String
  defenderId : String
  maxAttackerDice : ℚ
  maxDefenderDice : ℚ
  attackerRolled : Bool
  defenderRolled : Bool
  attackerDice : ℚ
  defenderDice : ℚ
  defenderAuto : Bool
deriving DecidableEq

/-- `battleId && activeBattle.battleId && battleId !== activeBattle.battleId`. -/
def battleIdMismatch (sessionId : String) (requested : Option String) : Bool :=
  optStrTruthy requested && strTruthy sessionId && decide (requested ≠ some sessionId)

/-- The state effect of the `commit_roll` handler on the active battle:
stale-session and non-finite dice are ignored; the attacker side (always) and
the non-auto defender side store the clamped dice count and set their rolled
flag; anyone else is ignored. -/
def commitRoll (b : Battle) (socketId : String) (battleId : Option String)
    (dice : JSNum) : Battle :=
  if battleIdMismatch b.battleId battleId then b
  else
    match dice with
    | JSNum.num q =>
        if socketId = b.attackerId then
          { b with attackerDice := max 1 (min b.maxAttackerDice q), attackerRolled := true }
        else if socketId = b.defenderId ∧ b.defenderAuto = false then
          { b with defenderDice := max 1 (min b.maxDefenderDice q), defenderRolled := true }
        else b
    | _ => b

/-- A session resolves the instant both sides have committed. -/
def battleBothRolled (b : Battle) : Bool := b.attackerRolled && b.defenderRolled

/-! ### Specification-side predicates (phrased from the spec's words, for
comparison with the embedded source functions) -/

/-- The coded preconditions of `attack` (with the dice count required only to
be a finite number, as the source checks it). -/
def AttackPre (s : GameState) (playerId fromId toId : String) (c : JSNum) : Prop :=
  s.winnerId = none ∧ s.phase = "TURN_ATTACK" ∧
  s.getCurrentPlayer.map Player.id = some playerId ∧
  ∃ from_ to_, s.getTerritory fromId = some from_ ∧ s.getTerritory toId = some to_ ∧
    from_.ownerId = some playerId ∧
    (isNeutralOwner to_.ownerId ∨ isEnemyOwner to_.ownerId playerId) ∧
    toId ∈ from_.neighbors ∧
    ∃ q : ℚ, c = JSNum.num q ∧ 1 ≤ q ∧ q ≤ from_.troops - 1 ∧ q ≤ 3

/-- The combat-resolution contract of a successful `attack`: dice counts,
dice ranges, descending order, pairwise comparisons with ties to the
defender, troop subtraction, and the conquest effects. -/
def AttackResolveSpec (rng : ℕ → Fin 6) (s : GameState) (playerId fromId toId : String)
    (q : ℚ) (from_ to_ : Territory) (out : GameState × AttackResult) : Prop :=
  let aLen := jsToLength q
  let dLen : ℕ := if 2 ≤ to_.troops then 2 else 1
  let s' := out.1
  let res := out.2
  res.attackerDice.length = aLen ∧
  res.defenderDice.length = dLen ∧
  (∀ d ∈ res.attackerDice, 1 ≤ d ∧ d ≤ 6) ∧
  (∀ d ∈ res.defenderDice, 1 ≤ d ∧ d ≤ 6) ∧
  List.Sorted (fun a b => b ≤ a) res.attackerDice ∧
  List.Sorted (fun a b => b ≤ a) res.defenderDice ∧
  res.attackerDice.Perm ((List.range aLen).map (fun i => (rng i).val + 1)) ∧
  res.defenderDice.Perm ((List.range dLen).map (fun i => (rng (aLen + i)).val + 1)) ∧
  res.attackerLosses + res.defenderLosses = min aLen dLen ∧
  res.defenderLosses = defenderLossCount (res.attackerDice.zip res.defenderDice) ∧
  res.attackerLosses = attackerLossCount (res.attackerDice.zip res.defenderDice) ∧
  (res.conquered = true ↔ to_.troops - (res.defenderLosses : ℚ) ≤ 0) ∧
  (res.conquered = false →
    s'.getTerritory fromId =
      some { from_ with troops := from_.troops - (res.attackerLosses : ℚ) } ∧
    s'.getTerritory toId =
      some { to_ with troops := to_.troops - (res.defenderLosses : ℚ) } ∧
    s'.winnerId = none ∧ s'.players = s.players) ∧
  (res.conquered = true →
    s'.getTerritory toId = some { to_ with
      ownerId := some playerId,
      troops := max 1 (q - (res.attackerLosses : ℚ)) } ∧
    s'.getTerritory fromId = some { from_ with
      troops := from_.troops - (res.attackerLosses : ℚ)
        - max 1 (q - (res.attackerLosses : ℚ)) } ∧
    (s'.getPlayer playerId).map Player.conqueredThisTurn = some true ∧
    s'.winnerId =
      (if s'.map.length ≤ territoryCountOf s'.map playerId then some playerId else none))

/-- "All non-wild cards share one type" (spec wording). -/
def NonWildSameType (cards : List Card) : Prop :=
  ∀ a ∈ cards, ∀ b ∈ cards,
    a.type ≠ CardType.wild → b.type ≠ CardType.wild → a.type = b.type

/-- "The number of the three troop types absent among the set's non-wild
cards" (spec wording; a card whose type is one of the three tags is never
wild). -/
def specMissingCount (cards : List Card) : ℕ :=
  (cardTypes.filter (fun ty => decide (∀ c ∈ cards, c.type ≠ ty))).length

/-- "The number of wild cards in the set" (spec wording). -/
def specWildCount (cards : List Card) : ℕ :=
  (cards.filter (fun c => c.type = CardType.wild)).length

/-- The reward schedule stated in the spec: `2N+2` for `N ≤ 5`, else
`15+5(N−6)`. -/
def rewardFormula (n : ℕ) : ℚ :=
  if n ≤ 5 then 2 * n + 2 else 15 + 5 * ((n : ℚ) - 6)

/-- Total troops on territories with any (non-null) owner — a player or the
neutral sentinel. -/
def ownedTroopSum (m : List Territory) : ℚ :=
  (m.map (fun tr => if tr.ownerId.isSome then tr.troops else 0)).sum

/-- Total troops on territories owned by an actual player of the match
(the literal reading of "owned by any player": the neutral sentinel is not a
player). -/
def playerOwnedTroopSum (s : GameState) : ℚ :=
  (s.map.map (fun tr =>
    if s.players.any (fun pl => some pl.id = tr.ownerId) then tr.troops else 0)).sum

/-! ### Concrete match states used as test inputs -/

/-- Identity reshuffle oracle. -/
def oshId : List Card → List Card := fun l => l

/-- A random stream that always rolls a six. -/
def rngSix : ℕ → Fin 6 := fun _ => ⟨5, by decide⟩

/-- A random stream whose first die is a six and the rest are ones. -/
def rngWin : ℕ → Fin 6 := fun i => if i = 0 then ⟨5, by decide⟩ else ⟨0, by decide⟩

/-- An empty deck. -/
def noDeck : Deck := { nextUid := 1, drawPile := [], discardPile := [] }

/-- A two-player SETUP state: A (current, pool 3) owns `t1`, B (pool 5)
owns `t2`. -/
def stDeploy : GameState :=
  { players := [
      { id := "A", pool := 3, ready := false, hand := [], conqueredThisTurn := false },
      { id := "B", pool := 5, ready := false, hand := [], conqueredThisTurn := false }],
    phase := "SETUP", isFirstRound := true, currentPlayerIndex := 0,
    winnerId := none, globalTradeInCount := 0, pendingCardEarned := none,
    deck := noDeck,
    map := [
      { id := "t1", continent := "c", neighbors := ["t2"], ownerId := some "A", troops := 1 },
      { id := "t2", continent := "c", neighbors := ["t1"], ownerId := some "B", troops := 1 }],
    continents := [], lastAttackId := 0, lastAttack := none, battleHistory := [] }

/-- An attack-phase state: A (current) holds `t1` with 3 troops next to B's
1-troop `t2`. -/
def stAttack : GameState :=
  { stDeploy with
    phase := "TURN_ATTACK",
    map := [
      { id := "t1", continent := "c", neighbors := ["t2"], ownerId := some "A", troops := 3 },
      { id := "t2", continent := "c", neighbors := ["t1"], ownerId := some "B", troops := 1 }] }

/-- An attack-phase state with a neutral target: A's 3-troop `t1` next to a
neutral 1-troop `t2`; B holds `t3`. -/
def stNeu : GameState :=
  { stDeploy with
    phase := "TURN_ATTACK",
    map := [
      { id := "t1", continent := "c", neighbors := ["t2"], ownerId := some "A", troops := 3 },
      { id := "t2", continent := "c", neighbors := ["t1"], ownerId := some "neutral",
        troops := 1 },
      { id := "t3", continent := "c", neighbors := [], ownerId := some "B", troops := 1 }] }

/-- A fortify-phase state: A (current) owns adjacent `t1` (3 troops) and
`t2` (1 troop); B owns `t3`. -/
def stFortify : GameState :=
  { stDeploy with
    phase := "TURN_FORTIFY",
    map := [
      { id := "t1", continent := "c", neighbors := ["t2"], ownerId := some "A", troops := 3 },
      { id := "t2", continent := "c", neighbors := ["t1"], ownerId := some "A", troops := 1 },
      { id := "t3", continent := "c", neighbors := ["t1"], ownerId := some "B", troops := 1 }] }

/-- A battle session in which the attacker has already committed one die and
the defender has not committed. -/
def bCommitted : Battle :=
  { battleId := "bat1", attackerId := "A", defenderId := "B",
    maxAttackerDice := 3, maxDefenderDice := 2,
    attackerRolled := true, defenderRolled := false,
    attackerDice := 1, defenderDice := 0, defenderAuto := false }

/-! ### Order instances for the descending-sort relation -/

instance : IsTotal ℕ (fun a b => b ≤ a) := ⟨fun a b => le_total b a⟩

instance : IsTrans ℕ (fun a b => b ≤ a) := ⟨fun _ _ _ h1 h2 => le_trans h2 h1⟩

end RiskGame

attribute [local semireducible] Rat.add Rat.sub Rat.mul Rat.inv

namespace RiskGame

/-! ## Helper lemmas -/

theorem losses_sum (pairs : List (ℕ × ℕ)) :
    attackerLossCount pairs + defenderLossCount pairs = pairs.length := by
  unfold attackerLossCount defenderLossCount
  induction pairs with
  | nil => rfl
  | cons h t ih =>
      rw [List.countP_cons, List.countP_cons, List.length_cons]
      by_cases hp : h.2 < h.1
      · rw [if_neg (by simp [hp]), if_pos (by simp [hp])]
        omega
      · rw [if_pos (by simp [hp]), if_neg (by simp [hp])]
        omega

/-! ## C6: trade-set validity -/

/-- C6: `isValidTradeSet` returns `true` exactly when the list has exactly 3
cards and either all non-wild cards share one type, or the number of the
three troop types absent among the set's non-wild cards does not exceed the
number of wild cards in the set. -/
theorem all_eq_iff_dedup_len (l : List CardType) :
    (∀ x ∈ l, ∀ y ∈ l, x = y) ↔ (l = [] ∨ l.dedup.length = 1) := by
  rw [← List.card_toFinset]
  constructor
  · intro h
    match l with
    | [] => exact Or.inl rfl
    | a :: t =>
        refine Or.inr ?_
        have : (a :: t).toFinset = {a} := by
          rw [Finset.eq_singleton_iff_unique_mem]
          refine ⟨by simp, fun b hb => ?_⟩
          exact h b (by simpa using hb) a (by simp)
        rw [this, Finset.card_singleton]
  · rintro (rfl | h1)
    · simp
    · obtain ⟨u, hu⟩ := Finset.card_eq_one.mp h1
      intro x hx y hy
      have hxu : x = u := by
        have : x ∈ l.toFinset := by simpa using hx
        rw [hu] at this
        simpa using this
      have hyu : y = u := by
        have : y ∈ l.toFinset := by simpa using hy
        rw [hu] at this
        simpa using this
      rw [hxu, hyu]

theorem mem_nonWildTypes (cards : List Card) (ty : CardType) :
    ty ∈ (cards.filter (fun c => c.type ≠ CardType.wild)).map Card.type ↔
      ∃ c ∈ cards, c.type ≠ CardType.wild ∧ c.type = ty := by
  constructor
  · intro h
    obtain ⟨c, hcf, hct⟩ := List.mem_map.mp h
    have hm := List.mem_filter.mp hcf
    exact ⟨c, hm.1, by simpa using hm.2, hct⟩
  · rintro ⟨c, hc, hw, hty⟩
    exact List.mem_map.mpr ⟨c, List.mem_filter.mpr ⟨hc, by simpa using hw⟩, hty⟩

theorem nonWildSame_iff (cards : List Card) :
    NonWildSameType cards ↔
      (((cards.filter (fun c => c.type ≠ CardType.wild)).map Card.type).length = 0 ∨
       ((cards.filter (fun c => c.type ≠ CardType.wild)).map Card.type).dedup.length = 1) := by
  rw [List.length_eq_zero, ← all_eq_iff_dedup_len]
  constructor
  · intro h x hx y hy
    obtain ⟨a, ha, haw, hax⟩ := (mem_nonWildTypes cards x).mp hx
    obtain ⟨b, hb, hbw, hby⟩ := (mem_nonWildTypes cards y).mp hy
    rw [← hax, ← hby]
    exact h a ha b hb haw hbw
  · intro h a ha b hb haw hbw
    exact h a.type ((mem_nonWildTypes cards a.type).mpr ⟨a, ha, haw, rfl⟩)
      b.type ((mem_nonWildTypes cards b.type).mpr ⟨b, hb, hbw, rfl⟩)

theorem missingCount_eq (cards : List Card) :
    (cardTypes.filter (fun ty =>
        ¬ ty ∈ (cards.filter (fun c => c.type ≠ CardType.wild)).map Card.type)).length =
      specMissingCount cards := by
  unfold specMissingCount
  congr 1
  apply List.filter_congr
  intro ty hty
  have htyw : ty ≠ CardType.wild := by
    simp only [cardTypes, List.mem_cons, List.not_mem_nil, or_false] at hty
    rcases hty with rfl | rfl | rfl <;> decide
  rw [decide_eq_decide]
  constructor
  · intro hnot c hc hcty
    exact hnot ((mem_nonWildTypes cards ty).mpr ⟨c, hc, by rw [hcty]; exact htyw, hcty⟩)
  · intro hall hmem
    obtain ⟨c, hc, _, hct⟩ := (mem_nonWildTypes cards ty).mp hmem
    exact hall c hc hct

/-- C6: `isValidTradeSet` returns `true` exactly when the list has exactly 3
cards and either all non-wild cards share one type, or the number of the
three troop types absent among the set's non-wild cards does not exceed the
number of wild cards in the set. -/
theorem c6_isValidTradeSet_iff (cards : List Card) :
    isValidTradeSet cards = true ↔
      cards.length = 3 ∧
        (NonWildSameType cards ∨ specMissingCount cards ≤ specWildCount cards) := by
  unfold isValidTradeSet
  by_cases hlen : cards.length = 3
  · simp only [hlen, ne_eq, not_true_eq_false, if_false, true_and]
    by_cases hsame :
        ((cards.filter (fun c => c.type ≠ CardType.wild)).map Card.type).length = 0 ∨
        ((cards.filter (fun c => c.type ≠ CardType.wild)).map Card.type).dedup.length = 1
    · simp only [hsame, if_true, true_iff]
      exact Or.inl ((nonWildSame_iff cards).mpr hsame)
    · simp only [hsame, if_false, decide_eq_true_eq]
      rw [missingCount_eq]
      have : ¬ NonWildSameType cards := fun h => hsame ((nonWildSame_iff cards).mp h)
      simp [this, specWildCount]
  · simp [hlen]

/-! ## C7: trade-in reward schedule -/

/-- C7: the reward of the Nth global trade-in equals `2N+2` for `N ≤ 5` and
`15+5(N−6)` for `N ≥ 6` (trades 1..7 yield 4, 6, 8, 10, 12, 15, 20), and the
schedule is monotonically non-decreasing in `N`. -/
theorem c7_tradeReward :
    (∀ N : ℕ, 1 ≤ N →
      getTradeInReward (JSNum.num (N : ℚ)) = JSNum.num (rewardFormula N)) ∧
    ((List.range 7).map (fun k => getTradeInReward (JSNum.num ((k : ℚ) + 1))) =
      [JSNum.num 4, JSNum.num 6, JSNum.num 8, JSNum.num 10, JSNum.num 12, JSNum.num 15,
       JSNum.num 20]) ∧
    (∀ N M : ℕ, 1 ≤ N → N ≤ M → rewardFormula N ≤ rewardFormula M) := by
  refine ⟨?_, by decide, ?_⟩
  · intro N hN
    have h1 : (1 : ℚ) ≤ (N : ℚ) := by exact_mod_cast hN
    have h0 : (N : ℚ) ≠ 0 := (lt_of_lt_of_le zero_lt_one h1).ne'
    have e1 : jsOr (JSNum.num (N : ℚ)) (JSNum.num 1) = JSNum.num (N : ℚ) := by
      simp [jsOr, JSNum.truthy, h0]
    have e2 : jsMax1 (JSNum.num (N : ℚ)) = JSNum.num (N : ℚ) := by
      simp [jsMax1, max_eq_right h1]
    unfold getTradeInReward
    rw [e1, e2]
    unfold rewardFormula
    by_cases h5 : N ≤ 5
    · have h5q : (N : ℚ) ≤ 5 := by exact_mod_cast h5
      simp [h5, h5q]
    · have h5q : ¬ (N : ℚ) ≤ 5 := by
        simp only [not_le] at h5 ⊢; exact_mod_cast h5
      simp only [h5, h5q, if_false, if_neg, JSNum.num.injEq]
      ring
  · intro N M h1 hNM
    unfold rewardFormula
    by_cases hN5 : N ≤ 5 <;> by_cases hM5 : M ≤ 5
    · have : (N : ℚ) ≤ (M : ℚ) := by exact_mod_cast hNM
      simp only [hN5, hM5, if_true]
      linarith
    · have hM6 : (6 : ℚ) ≤ (M : ℚ) := by exact_mod_cast (by omega : 6 ≤ M)
      have hNq : (N : ℚ) ≤ 5 := by exact_mod_cast hN5
      simp only [hN5, hM5, if_true, if_false]
      linarith
    · omega
    · have : (N : ℚ) ≤ (M : ℚ) := by exact_mod_cast hNM
      simp only [hN5, hM5, if_false]
      linarith

/-- C7 witness: the theorem applied at `N = 6` and at the pair `(1, 7)`. -/
theorem c7_tradeReward_witness :
    getTradeInReward (JSNum.num ((6 : ℕ) : ℚ)) = JSNum.num (rewardFormula 6) ∧
      rewardFormula 1 ≤ rewardFormula 7 :=
  ⟨c7_tradeReward.1 6 (by decide), c7_tradeReward.2.2 1 7 (by decide) (by decide)⟩

/-! ## C5: commit-roll sessions -/

/-- C5 counterexample: the attacker has already committed one die (the
session is not yet resolved); a second commit from the attacker is accepted
and overwrites the committed dice count with 3. -/
theorem c5_counterexample :
    bCommitted.attackerRolled = true ∧ battleBothRolled bCommitted = false ∧
      commitRoll bCommitted "A" none (JSNum.num 3) =
        { bCommitted with attackerDice := 3 } ∧
      bCommitted.attackerDice = 1 ∧ (1 : ℚ) ≠ 3 := by decide

/-- C5 (amended): a commit-roll with a matching session id and a finite dice
count from the attacker — or from the non-auto defender — is always accepted,
overwriting that side's committed dice (clamped into `[1, maxForThatSide]`)
and setting its rolled flag, regardless of whether that side had already
committed; commits for an auto-resolved defender side are ignored. -/
theorem c5_commitRoll_overwrites (b : Battle) (sid : String) (bid : Option String) (q : ℚ)
    (hmatch : battleIdMismatch b.battleId bid = false) :
    (sid = b.attackerId →
      commitRoll b sid bid (JSNum.num q) =
        { b with attackerDice := max 1 (min b.maxAttackerDice q), attackerRolled := true }) ∧
    (sid ≠ b.attackerId → sid = b.defenderId → b.defenderAuto = false →
      commitRoll b sid bid (JSNum.num q) =
        { b with defenderDice := max 1 (min b.maxDefenderDice q), defenderRolled := true }) ∧
    (sid ≠ b.attackerId → b.defenderAuto = true →
      commitRoll b sid bid (JSNum.num q) = b) := by
  refine ⟨?_, ?_, ?_⟩
  · intro hA
    simp [commitRoll, hmatch, hA]
  · intro hA hD hAuto
    subst hD
    simp [commitRoll, hmatch, hA, hAuto]
  · intro hA hAuto
    simp [commitRoll, hmatch, hA, hAuto]

/-- C5 witness: the amended theorem applied to the concrete session
`bCommitted` (attacker already committed, dice 3 requested). -/
theorem c5_commitRoll_witness :
    commitRoll bCommitted "A" none (JSNum.num 3) =
      { bCommitted with
        attackerDice := max 1 (min bCommitted.maxAttackerDice 3),
        attackerRolled := true } :=
  (c5_commitRoll_overwrites bCommitted "A" none 3 (by decide)).1 rfl

/-! ## Lemmas about in-place updates of the first matching record -/

theorem find?_updateFirstT_self (g : Territory → Territory)
    (hg : ∀ tr, (g tr).id = tr.id) (m : List Territory) (tid : String) (tr : Territory)
    (h : m.find? (fun x => x.id = tid) = some tr) :
    (updateFirstT g m tid).find? (fun x => x.id = tid) = some (g tr) := by
  induction m with
  | nil => simp [List.find?] at h
  | cons hd tl ih =>
      unfold updateFirstT
      by_cases hh : hd.id = tid
      · rw [if_pos hh]
        rw [List.find?_cons_of_pos _ (by simp [hh])] at h
        have heq : hd = tr := by simpa using h
        subst heq
        rw [List.find?_cons_of_pos _ (by simp [hg hd, hh])]
      · rw [if_neg hh]
        rw [List.find?_cons_of_neg _ (by simp [hh])] at h
        rw [List.find?_cons_of_neg _ (by simp [hh])]
        exact ih h

theorem find?_updateFirstT_other (g : Territory → Territory)
    (hg : ∀ tr, (g tr).id = tr.id) (m : List Territory) (tid tid2 : String)
    (hne : tid2 ≠ tid) :
    (updateFirstT g m tid).find? (fun x => x.id = tid2) =
      m.find? (fun x => x.id = tid2) := by
  induction m with
  | nil => rfl
  | cons hd tl ih =>
      unfold updateFirstT
      by_cases hh : hd.id = tid
      · rw [if_pos hh]
        have h1 : ¬ (g hd).id = tid2 := by
          rw [hg hd, hh]; exact fun hcon => hne hcon.symm
        have h2 : ¬ hd.id = tid2 := by
          rw [hh]; exact fun hcon => hne hcon.symm
        rw [List.find?_cons_of_neg _ (by simpa using h1),
          List.find?_cons_of_neg _ (by simpa using h2)]
      · rw [if_neg hh]
        by_cases h2 : hd.id = tid2
        · rw [List.find?_cons_of_pos _ (by simp [h2]),
            List.find?_cons_of_pos _ (by simp [h2])]
        · rw [List.find?_cons_of_neg _ (by simp [h2]),
            List.find?_cons_of_neg _ (by simp [h2])]
          exact ih

theorem map_sum_updateFirstT (F : Territory → ℚ) (g : Territory → Territory)
    (m : List Territory) (tid : String) (tr : Territory)
    (h : m.find? (fun x => x.id = tid) = some tr) :
    ((updateFirstT g m tid).map F).sum = (m.map F).sum - F tr + F (g tr) := by
  induction m with
  | nil => simp [List.find?] at h
  | cons hd tl ih =>
      unfold updateFirstT
      by_cases hh : hd.id = tid
      · rw [if_pos hh]
        rw [List.find?_cons_of_pos _ (by simp [hh])] at h
        have heq : hd = tr := by simpa using h
        subst heq
        simp only [List.map_cons, List.sum_cons]
        ring
      · rw [if_neg hh]
        rw [List.find?_cons_of_neg _ (by simp [hh])] at h
        simp only [List.map_cons, List.sum_cons, ih h]
        ring

theorem find?_updateFirstP_self (g : Player → Player)
    (hg : ∀ pl, (g pl).id = pl.id) (l : List Player) (pid : String) (pl : Player)
    (h : l.find? (fun x => x.id = pid) = some pl) :
    (updateFirstP g l pid).find? (fun x => x.id = pid) = some (g pl) := by
  induction l with
  | nil => simp [List.find?] at h
  | cons hd tl ih =>
      unfold updateFirstP
      by_cases hh : hd.id = pid
      · rw [if_pos hh]
        rw [List.find?_cons_of_pos _ (by simp [hh])] at h
        have heq : hd = pl := by simpa using h
        subst heq
        rw [List.find?_cons_of_pos _ (by simp [hg hd, hh])]
      · rw [if_neg hh]
        rw [List.find?_cons_of_neg _ (by simp [hh])] at h
        rw [List.find?_cons_of_neg _ (by simp [hh])]
        exact ih h

/-! ## C1: deploy and the current-player gate -/

/-- C1 counterexample: in a SETUP-phase state where B has a non-empty pool
and owns `t2` but the turn cursor points at A, B's deploy is rejected. -/
theorem c1_counterexample :
    stDeploy.phase = "SETUP" ∧
    (stDeploy.getPlayer "B").map Player.pool = some 5 ∧
    (stDeploy.getTerritory "t2").map Territory.ownerId = some (some "B") ∧
    (stDeploy.getCurrentPlayer).map Player.id = some "A" ∧
    deploy stDeploy "B" "t2" (JSNum.num 1) = none := by decide

/-- C1 (amended): in every phase — SETUP and GLOBAL_REINFORCE included — a
successful `deploy` requires the acting player to be the current player. -/
theorem c1_deploy_requires_current (s : GameState) (p tid : String) (c : JSNum)
    (s' : GameState) (h : deploy s p tid c = some s') :
    ∃ cp, s.getCurrentPlayer = some cp ∧ cp.id = p := by
  unfold deploy at h
  rw [Option.map_eq_some'] at h
  obtain ⟨s1, h, -⟩ := h
  unfold deployChecked at h
  split at h
  · exact absurd h (by simp)
  · split at h
    · exact absurd h (by simp)
    · split at h
      · exact absurd h (by simp)
      · rename_i hcur
        rw [not_ne_iff] at hcur
        obtain ⟨cp, hcp, hid⟩ := Option.map_eq_some'.mp hcur
        exact ⟨cp, hcp, hid⟩

/-- C1 witness: the amended theorem applied to a successful deploy by the
current player A in `stDeploy`. -/
theorem c1_deploy_requires_current_witness :
    ∃ cp, stDeploy.getCurrentPlayer = some cp ∧ cp.id = "A" :=
  c1_deploy_requires_current stDeploy "A" "t1" (JSNum.num 1) _ rfl

/-! ## C10: deploy coerces non-positive counts to 1 -/

/-- C10: a deploy whose count is `NaN` (any non-numeric input coerces to
`NaN` under `Number(·)`), `0`, negative, or `-Infinity` is coerced to exactly
1 troop; if the caller passes the other checks with pool ≥ 1, the call
succeeds, adding one troop to the territory and deducting one from the
pool. -/
theorem c10_deploy_coerces (s : GameState) (p tid : String) (c : JSNum)
    (pl : Player) (terr : Territory)
    (hw : s.winnerId = none)
    (hpl : s.getPlayer p = some pl)
    (hcur : s.getCurrentPlayer.map Player.id = some p)
    (hterr : s.getTerritory tid = some terr)
    (hown : terr.ownerId = some p)
    (hpool : 1 ≤ pl.pool)
    (hc : c = JSNum.nan ∨ c = JSNum.num 0 ∨ (∃ q : ℚ, q < 0 ∧ c = JSNum.num q) ∨
          c = JSNum.negInf) :
    deployAmount c = JSNum.num 1 ∧
    ∃ s1, deployChecked s p tid c = some s1 ∧
      deploy s p tid c = some (deployFinish s1 p) ∧
      (s1.getTerritory tid).map Territory.troops = some (terr.troops + 1) ∧
      (s1.getPlayer p).map Player.pool = some (pl.pool - 1) := by
  have hamt : deployAmount c = JSNum.num 1 := by
    rcases hc with rfl | rfl | ⟨q, hq, rfl⟩ | rfl
    · rfl
    · simp [deployAmount, jsOr, JSNum.truthy, jsMax1]
    · have hq1 : q ≤ 1 := le_of_lt (lt_trans hq zero_lt_one)
      simp [deployAmount, jsOr, JSNum.truthy, hq.ne, jsMax1, max_eq_left hq1]
    · rfl
  have hnotlt : ¬ pl.pool < 1 := not_lt.mpr hpool
  have hchecked : deployChecked s p tid c = some { s with
      map := updateFirstT (fun tr => { tr with troops := tr.troops + (1 : ℚ) }) s.map tid,
      players := updateFirstP (fun x => { x with pool := x.pool - (1 : ℚ) }) s.players p } := by
    unfold deployChecked
    rw [hw, hamt]
    simp only [Option.isSome_none, Bool.false_eq_true, if_false, hpl, hcur, hterr, hown,
      ne_eq, not_true_eq_false, if_false, hnotlt]
  refine ⟨hamt, _, hchecked, ?_, ?_, ?_⟩
  · unfold deploy
    rw [hchecked]
    rfl
  · show (GameState.getTerritory _ tid).map Territory.troops = _
    unfold GameState.getTerritory
    rw [find?_updateFirstT_self (fun tr => { tr with troops := tr.troops + (1 : ℚ) })
      (fun _ => rfl) s.map tid terr hterr]
    rfl
  · show (GameState.getPlayer _ p).map Player.pool = _
    unfold GameState.getPlayer
    rw [find?_updateFirstP_self (fun x => { x with pool := x.pool - (1 : ℚ) })
      (fun _ => rfl) s.players p pl hpl]
    rfl

/-- C10 witness: deploying with count 0 in `stDeploy` as the current player
A onto `t1`. -/
theorem c10_deploy_coerces_witness :
    deployAmount (JSNum.num 0) = JSNum.num 1 ∧
    ∃ s1, deployChecked stDeploy "A" "t1" (JSNum.num 0) = some s1 ∧
      deploy stDeploy "A" "t1" (JSNum.num 0) = some (deployFinish s1 "A") ∧
      (s1.getTerritory "t1").map Territory.troops = some ((1 : ℚ) + 1) ∧
      (s1.getPlayer "A").map Player.pool = some ((3 : ℚ) - 1) :=
  c10_deploy_coerces stDeploy "A" "t1" (JSNum.num 0)
    { id := "A", pool := 3, ready := false, hand := [], conqueredThisTurn := false }
    { id := "t1", continent := "c", neighbors := ["t2"], ownerId := some "A", troops := 1 }
    rfl rfl rfl rfl rfl (by norm_num) (Or.inr (Or.inl rfl))

/-! ## The attack precondition gate -/

theorem attack_eq_some (rng : ℕ → Fin 6) (s : GameState) (p f t : String) (c : JSNum)
    (out : GameState × AttackResult) (h : attack rng s p f t c = some out) :
    ∃ q from_ to_,
      c = JSNum.num q ∧ s.getTerritory f = some from_ ∧ s.getTerritory t = some to_ ∧
      s.winnerId = none ∧ s.phase = "TURN_ATTACK" ∧
      s.getCurrentPlayer.map Player.id = some p ∧
      from_.ownerId = some p ∧ (isNeutralOwner to_.ownerId ∨ isEnemyOwner to_.ownerId p) ∧
      t ∈ from_.neighbors ∧ 1 ≤ q ∧ q ≤ from_.troops - 1 ∧ q ≤ 3 ∧
      out = attackResolve rng s p f t q to_ := by
  unfold attack at h
  split at h
  · exact absurd h (by simp)
  rename_i hw
  split at h
  · exact absurd h (by simp)
  rename_i hphase
  split at h
  · exact absurd h (by simp)
  rename_i hcur
  split at h
  case _ from_ to_ hf ht =>
    split at h
    · exact absurd h (by simp)
    rename_i hguard
    rw [not_not] at hguard
    split at h
    · exact absurd h (by simp)
    rename_i hnb
    rw [not_not] at hnb
    split at h
    · exact absurd h (by simp)
    rename_i hmin
    cases c with
    | num q =>
        rw [show (match JSNum.num q with
            | JSNum.num q =>
              if q < 1 then none
              else if from_.troops - 1 < q then none
              else if 3 < q then none else some (attackResolve rng s p f t q to_)
            | _ => (none : Option (GameState × AttackResult))) =
          (if q < 1 then none
           else if from_.troops - 1 < q then none
           else if 3 < q then none else some (attackResolve rng s p f t q to_)) from rfl] at h
        split at h
        · exact absurd h (by simp)
        rename_i h1
        split at h
        · exact absurd h (by simp)
        rename_i h2
        split at h
        · exact absurd h (by simp)
        rename_i h3
        refine ⟨q, from_, to_, rfl, hf, ht, ?_, ?_, ?_, hguard.1, hguard.2, hnb,
          not_lt.mp h1, not_lt.mp h2, not_lt.mp h3, ?_⟩
        · cases heq : s.winnerId with
          | none => rfl
          | some w => rw [heq] at hw; simp at hw
        · exact not_not.mp hphase
        · exact not_ne_iff.mp hcur
        · exact (Option.some.injEq _ _ ▸ h).symm
    | nan => exact absurd h (by simp)
    | posInf => exact absurd h (by simp)
    | negInf => exact absurd h (by simp)
  all_goals exact absurd h (by simp)

/-! ## C2: attack precondition failures -/

/-- C2 counterexample: the dice-count argument `3/2` is not an integer, yet
the attack is accepted (the option is `some`) and the match state changes
(`lastAttackId` increments from 0 to 1). -/
theorem c2_counterexample :
    ((3 : ℚ) / 2).den = 2 ∧
    (attack rngSix stAttack "A" "t1" "t2" (JSNum.num (3 / 2))).isSome = true ∧
    (attack rngSix stAttack "A" "t1" "t2" (JSNum.num (3 / 2))).map
        (fun pr => pr.1.lastAttackId) = some 1 ∧
    stAttack.lastAttackId = 0 := by decide

/-- C2 (amended): every successful attack satisfies all coded preconditions —
no winner, phase TURN_ATTACK, caller is the current player, both territories
exist, `from` owned by the attacker, `to` neutral or another player's,
adjacency, and a dice count that is a *finite number* (integrality is not
checked) with `1 ≤ q ≤ min(3, from.troops − 1)`; contrapositively, when any
of these fails the call returns the failure value `none` (and, the embedding
being the source's early-return guards, no state is touched). -/
theorem c2_attack_preconditions (rng : ℕ → Fin 6) (s : GameState) (p f t : String)
    (c : JSNum) (out : GameState × AttackResult)
    (h : attack rng s p f t c = some out) : AttackPre s p f t c := by
  obtain ⟨q, from_, to_, hc, hf, ht, hw, hph, hcur, hown, htgt, hnb, h1, h2, h3, -⟩ :=
    attack_eq_some rng s p f t c out h
  exact ⟨hw, hph, hcur, from_, to_, hf, ht, hown, htgt, hnb, q, hc, h1, h2, h3⟩

/-- C2 witness: the amended theorem applied to a successful 2-dice attack in
`stAttack`. -/
theorem c2_attack_preconditions_witness :
    AttackPre stAttack "A" "t1" "t2" (JSNum.num 2) :=
  c2_attack_preconditions rngSix stAttack "A" "t1" "t2" (JSNum.num 2) _ rfl

/-! ## Dice-roll lemmas -/

theorem rollDice_length (rng : ℕ → Fin 6) (off count : ℕ) :
    (rollDice rng off count).length = count := by
  unfold rollDice sortDesc
  rw [List.length_insertionSort, List.length_map, List.length_range]

theorem rollDice_sorted (rng : ℕ → Fin 6) (off count : ℕ) :
    List.Sorted (fun a b => b ≤ a) (rollDice rng off count) :=
  List.sorted_insertionSort _ _

theorem rollDice_perm (rng : ℕ → Fin 6) (off count : ℕ) :
    (rollDice rng off count).Perm ((List.range count).map (fun i => (rng (off + i)).val + 1)) :=
  List.perm_insertionSort _ _

theorem rollDice_mem (rng : ℕ → Fin 6) (off count : ℕ) (d : ℕ)
    (hd : d ∈ rollDice rng off count) : 1 ≤ d ∧ d ≤ 6 := by
  have hd2 := (rollDice_perm rng off count).mem_iff.mp hd
  obtain ⟨i, -, rfl⟩ := List.mem_map.mp hd2
  have := (rng (off + i)).isLt
  omega

theorem attackADice_length (rng : ℕ → Fin 6) (q : ℚ) :
    (attackADice rng q).length = jsToLength q := rollDice_length rng 0 (jsToLength q)

theorem attackDDice_length (rng : ℕ → Fin 6) (q : ℚ) (to_ : Territory) :
    (attackDDice rng q to_).length = attackDLen to_ :=
  rollDice_length rng (jsToLength q) (attackDLen to_)

theorem attackLoss_sum (rng : ℕ → Fin 6) (q : ℚ) (to_ : Territory) :
    attackALoss rng q to_ + attackDLoss rng q to_ =
      min (jsToLength q) (attackDLen to_) := by
  unfold attackALoss attackDLoss attackPairs
  rw [losses_sum, List.length_zip, attackADice_length, attackDDice_length]

/-- The `moveCount` computed by the source equals the spec's
`max(1, requested − attackerLosses)`. -/
theorem attackMoveCount_eq (rng : ℕ → Fin 6) (q : ℚ) (to_ : Territory) :
    attackMoveCount rng q to_ = max 1 (q - (attackALoss rng q to_ : ℚ)) := by
  unfold attackMoveCount attackSurvivors
  rw [← max_assoc, max_eq_left (by norm_num : (0 : ℚ) ≤ 1)]

/-! ## C3: the combat-resolution algorithm -/

theorem attackResolve_spec (rng : ℕ → Fin 6) (s : GameState) (p f t : String) (q : ℚ)
    (from_ to_ : Territory)
    (hf : s.getTerritory f = some from_) (ht : s.getTerritory t = some to_)
    (hne : f ≠ t) (hw : s.winnerId = none)
    (hcur : s.getCurrentPlayer.map Player.id = some p) :
    AttackResolveSpec rng s p f t q from_ to_ (attackResolve rng s p f t q to_) := by
  unfold GameState.getTerritory at hf ht
  have htf : t ≠ f := fun hc => hne hc.symm
  have hm1t : (attackM1 rng s.map f q to_).find? (fun x => x.id = t) = some to_ := by
    unfold attackM1
    rw [find?_updateFirstT_other (fun tr => { tr with troops := tr.troops - (attackALoss rng q to_ : ℚ) }) (fun _ => rfl) _ _ _ htf]
    exact ht
  have hm1f : (attackM1 rng s.map f q to_).find? (fun x => x.id = f) =
      some { from_ with troops := from_.troops - (attackALoss rng q to_ : ℚ) } := by
    unfold attackM1
    exact find?_updateFirstT_self (fun tr => { tr with troops := tr.troops - (attackALoss rng q to_ : ℚ) }) (fun _ => rfl) _ _ _ hf
  have hm2t : (attackM2 rng s.map f t q to_).find? (fun x => x.id = t) =
      some { to_ with troops := to_.troops - (attackDLoss rng q to_ : ℚ) } := by
    unfold attackM2
    exact find?_updateFirstT_self (fun tr => { tr with troops := tr.troops - (attackDLoss rng q to_ : ℚ) }) (fun _ => rfl) _ _ _ hm1t
  have hm2f : (attackM2 rng s.map f t q to_).find? (fun x => x.id = f) =
      some { from_ with troops := from_.troops - (attackALoss rng q to_ : ℚ) } := by
    unfold attackM2
    rw [find?_updateFirstT_other (fun tr => { tr with troops := tr.troops - (attackDLoss rng q to_ : ℚ) }) (fun _ => rfl) _ _ _ hne]
    exact hm1f
  have htt : attackToTroops2 rng s.map f t q to_ =
      to_.troops - (attackDLoss rng q to_ : ℚ) := by
    unfold attackToTroops2
    rw [hm2t]
    rfl
  -- the conquest-branch map reads
  have hm3t : (attackM3 rng s.map f t q to_).find? (fun x => x.id = t) =
      some { to_ with troops := to_.troops - (attackDLoss rng q to_ : ℚ) } := by
    unfold attackM3
    rw [find?_updateFirstT_other (fun tr => { tr with troops := tr.troops - attackMoveCount rng q to_ }) (fun _ => rfl) _ _ _ htf]
    exact hm2t
  have hm3f : (attackM3 rng s.map f t q to_).find? (fun x => x.id = f) =
      some { from_ with troops :=
        from_.troops - (attackALoss rng q to_ : ℚ) - attackMoveCount rng q to_ } := by
    unfold attackM3
    exact find?_updateFirstT_self (fun tr => { tr with troops := tr.troops - attackMoveCount rng q to_ }) (fun _ => rfl) _ _ _ hm2f
  have hm4t : (attackM4 rng s.map p f t q to_).find? (fun x => x.id = t) =
      some { to_ with ownerId := some p, troops := attackMoveCount rng q to_ } := by
    unfold attackM4
    exact find?_updateFirstT_self
      (fun tr => { tr with ownerId := some p, troops := attackMoveCount rng q to_ })
      (fun _ => rfl) (attackM3 rng s.map f t q to_) t
      { to_ with troops := to_.troops - (attackDLoss rng q to_ : ℚ) } hm3t
  have hm4f : (attackM4 rng s.map p f t q to_).find? (fun x => x.id = f) =
      some { from_ with troops :=
        from_.troops - (attackALoss rng q to_ : ℚ) - attackMoveCount rng q to_ } := by
    unfold attackM4
    rw [find?_updateFirstT_other (fun tr => { tr with ownerId := some p, troops := attackMoveCount rng q to_ }) (fun _ => rfl) _ _ _ hne]
    exact hm3f
  -- the attacker exists among the players
  obtain ⟨cp, hcp, hcpid⟩ := Option.map_eq_some'.mp hcur
  have hcpm : cp ∈ s.players := List.get?_mem hcp
  have hfindp : (s.players.find? (fun x => x.id = p)).isSome :=
    List.find?_isSome.mpr ⟨cp, hcpm, by simp [hcpid]⟩
  obtain ⟨pl0, hpl0⟩ := Option.isSome_iff_exists.mp hfindp
  have hplayers2 : (updateFirstP (fun pl => { pl with conqueredThisTurn := true })
      s.players p).find? (fun x => x.id = p) =
      some { pl0 with conqueredThisTurn := true } :=
    find?_updateFirstP_self (fun pl => { pl with conqueredThisTurn := true }) (fun _ => rfl) _ _ _ hpl0
  simp only [AttackResolveSpec]
  by_cases hcq : attackToTroops2 rng s.map f t q to_ ≤ 0
  · unfold attackResolve
    rw [if_pos hcq]
    refine ⟨attackADice_length rng q, attackDDice_length rng q to_,
      fun d hd => rollDice_mem _ _ _ d hd, fun d hd => rollDice_mem _ _ _ d hd,
      rollDice_sorted _ _ _, rollDice_sorted _ _ _,
      by simpa using rollDice_perm rng 0 (jsToLength q),
      rollDice_perm rng (jsToLength q) (attackDLen to_),
      attackLoss_sum rng q to_, rfl, rfl, ?_, ?_, ?_⟩
    · exact iff_of_true rfl (htt ▸ hcq)
    · intro hcon
      exact absurd hcon (by simp)
    · intro _
      refine ⟨?_, ?_, ?_, rfl⟩
      · show (GameState.getTerritory _ t) = _
        unfold GameState.getTerritory
        rw [show (({ s with
            map := attackM4 rng s.map p f t q to_,
            players := updateFirstP (fun pl => { pl with conqueredThisTurn := true })
              s.players p,
            winnerId := attackWinner rng s.map p f t q to_,
            lastAttackId := s.lastAttackId + 1,
            lastAttack := some (attackRec rng s p f t q to_ true
              (attackWinner rng s.map p f t q to_)),
            battleHistory := pushCapped s.battleHistory
              (attackRec rng s p f t q to_ true
                (attackWinner rng s.map p f t q to_)) 50 } : GameState).map) =
          attackM4 rng s.map p f t q to_ from rfl]
        rw [hm4t, attackMoveCount_eq]
      · show (GameState.getTerritory _ f) = _
        unfold GameState.getTerritory
        show (attackM4 rng s.map p f t q to_).find? (fun x => x.id = f) = _
        rw [hm4f, attackMoveCount_eq]
      · show (GameState.getPlayer _ p).map Player.conqueredThisTurn = _
        unfold GameState.getPlayer
        show ((updateFirstP (fun pl => { pl with conqueredThisTurn := true })
            s.players p).find? (fun x => x.id = p)).map Player.conqueredThisTurn = _
        rw [hplayers2]
        rfl
  · unfold attackResolve
    rw [if_neg hcq]
    refine ⟨attackADice_length rng q, attackDDice_length rng q to_,
      fun d hd => rollDice_mem _ _ _ d hd, fun d hd => rollDice_mem _ _ _ d hd,
      rollDice_sorted _ _ _, rollDice_sorted _ _ _,
      by simpa using rollDice_perm rng 0 (jsToLength q),
      rollDice_perm rng (jsToLength q) (attackDLen to_),
      attackLoss_sum rng q to_, rfl, rfl, ?_, ?_, ?_⟩
    · exact iff_of_false (by simp) (fun hc => hcq (htt ▸ hc))
    · intro _
      refine ⟨?_, ?_, hw, rfl⟩
      · show (GameState.getTerritory _ f) = _
        unfold GameState.getTerritory
        show (attackM2 rng s.map f t q to_).find? (fun x => x.id = f) = _
        exact hm2f
      · show (GameState.getTerritory _ t) = _
        unfold GameState.getTerritory
        show (attackM2 rng s.map f t q to_).find? (fun x => x.id = t) = _
        exact hm2t
    · intro hcon
      exact absurd hcon (by simp)

/-- C3: a resolved attack rolls the requested number of dice for the
attacker and the defaulted count for the defender (each die in 1..6, from the
uniform stream `floor(random()*6)+1`), sorts each side descending, compares
position-by-position over `min` of the counts with ties to the defender,
subtracts the losses; on conquest, ownership transfers, the attacker's
conquest flag is set, `max(1, requested − attackerLosses)` troops move in,
and the win check runs. -/
theorem c3_attack_resolution (rng : ℕ → Fin 6) (s : GameState) (p f t : String)
    (c : JSNum) (out : GameState × AttackResult)
    (hne : f ≠ t) (h : attack rng s p f t c = some out) :
    ∃ q from_ to_, c = JSNum.num q ∧ s.getTerritory f = some from_ ∧
      s.getTerritory t = some to_ ∧ AttackResolveSpec rng s p f t q from_ to_ out := by
  obtain ⟨q, from_, to_, hc, hf, ht, hw, hph, hcur, hown, htgt, hnb, h1, h2, h3, hout⟩ :=
    attack_eq_some rng s p f t c out h
  subst hout
  exact ⟨q, from_, to_, hc, hf, ht,
    attackResolve_spec rng s p f t q from_ to_ hf ht hne hw hcur⟩

/-- C3 witness: the theorem applied to a successful 2-dice attack in
`stAttack`. -/
theorem c3_attack_resolution_witness :
    ∃ out, attack rngSix stAttack "A" "t1" "t2" (JSNum.num 2) = some out ∧
      ∃ q from_ to_, (JSNum.num 2 : JSNum) = JSNum.num q ∧
        stAttack.getTerritory "t1" = some from_ ∧
        stAttack.getTerritory "t2" = some to_ ∧
        AttackResolveSpec rngSix stAttack "A" "t1" "t2" q from_ to_ out :=
  ⟨_, rfl, c3_attack_resolution rngSix stAttack "A" "t1" "t2" (JSNum.num 2) _
    (by decide) rfl⟩

/-! ## C4: troop conservation across an attack -/

/-- C4 counterexample (literal reading: the neutral sentinel is not a
player): conquering a neutral territory with one die and no attacker losses
keeps the player-owned troop sum unchanged although the defender lost a
troop. -/
theorem c4_counterexample :
    (attack rngWin stNeu "A" "t1" "t2" (JSNum.num 1)).map
        (fun pr => playerOwnedTroopSum pr.1) = some (playerOwnedTroopSum stNeu) ∧
    (attack rngWin stNeu "A" "t1" "t2" (JSNum.num 1)).map
        (fun pr => pr.2.attackerLosses + pr.2.defenderLosses) = some 1 ∧
    (attack rngWin stNeu "A" "t1" "t2" (JSNum.num 1)).map
        (fun pr => pr.2.conquered) = some true := by decide

/-- C4 (amended): counting the troops of every territory with a non-null
owner (the neutral sentinel included), and assuming every owned territory
starts with at least 1 troop: across a single attack resolution over
distinct territories the sum is non-increasing, strictly decreasing whenever
any losses occur, and a freshly conquered territory holds exactly
`max(1, requested − attackerLosses)` — the surviving attacking troops. -/
theorem c4_owned_sum (rng : ℕ → Fin 6) (s : GameState) (p f t : String) (c : JSNum)
    (out : GameState × AttackResult) (hne : f ≠ t)
    (hinv : ∀ tr ∈ s.map, tr.ownerId.isSome = true → 1 ≤ tr.troops)
    (h : attack rng s p f t c = some out) :
    ownedTroopSum out.1.map ≤ ownedTroopSum s.map ∧
    (0 < out.2.attackerLosses + out.2.defenderLosses →
      ownedTroopSum out.1.map < ownedTroopSum s.map) ∧
    (out.2.conquered = true →
      ∃ q, c = JSNum.num q ∧
        (out.1.getTerritory t).map Territory.troops =
          some (max 1 (q - (out.2.attackerLosses : ℚ)))) := by
  obtain ⟨q, from_, to_, hc, hf, ht, hw, hph, hcur, hown, htgt, hnb, h1, h2, h3, hout⟩ :=
    attack_eq_some rng s p f t c out h
  subst hout
  unfold GameState.getTerritory at hf ht
  have htf : t ≠ f := fun hcc => hne hcc.symm
  have htoSome : to_.ownerId.isSome = true := by
    rcases htgt with hn | he
    · rw [hn]; rfl
    · rcases he with ⟨htr, -⟩
      cases hoo : to_.ownerId with
      | none => rw [hoo] at htr; simp [optStrTruthy] at htr
      | some x => rfl
  have hfromSome : from_.ownerId.isSome = true := by rw [hown]; rfl
  have hto1 : 1 ≤ to_.troops := hinv to_ (List.mem_of_find?_eq_some ht) htoSome
  have hm1t : (attackM1 rng s.map f q to_).find? (fun x => x.id = t) = some to_ := by
    unfold attackM1
    rw [find?_updateFirstT_other
      (fun tr => { tr with troops := tr.troops - (attackALoss rng q to_ : ℚ) })
      (fun _ => rfl) _ _ _ htf]
    exact ht
  have hm2t : (attackM2 rng s.map f t q to_).find? (fun x => x.id = t) =
      some { to_ with troops := to_.troops - (attackDLoss rng q to_ : ℚ) } := by
    unfold attackM2
    exact find?_updateFirstT_self
      (fun tr => { tr with troops := tr.troops - (attackDLoss rng q to_ : ℚ) })
      (fun _ => rfl) _ _ _ hm1t
  have hm1f : (attackM1 rng s.map f q to_).find? (fun x => x.id = f) =
      some { from_ with troops := from_.troops - (attackALoss rng q to_ : ℚ) } := by
    unfold attackM1
    exact find?_updateFirstT_self
      (fun tr => { tr with troops := tr.troops - (attackALoss rng q to_ : ℚ) })
      (fun _ => rfl) _ _ _ hf
  have hm2f : (attackM2 rng s.map f t q to_).find? (fun x => x.id = f) =
      some { from_ with troops := from_.troops - (attackALoss rng q to_ : ℚ) } := by
    unfold attackM2
    rw [find?_updateFirstT_other
      (fun tr => { tr with troops := tr.troops - (attackDLoss rng q to_ : ℚ) })
      (fun _ => rfl) _ _ _ hne]
    exact hm1f
  have hm3t : (attackM3 rng s.map f t q to_).find? (fun x => x.id = t) =
      some { to_ with troops := to_.troops - (attackDLoss rng q to_ : ℚ) } := by
    unfold attackM3
    rw [find?_updateFirstT_other
      (fun tr => { tr with troops := tr.troops - attackMoveCount rng q to_ })
      (fun _ => rfl) _ _ _ htf]
    exact hm2t
  have hm4t : (attackM4 rng s.map p f t q to_).find? (fun x => x.id = t) =
      some { to_ with ownerId := some p, troops := attackMoveCount rng q to_ } := by
    unfold attackM4
    exact find?_updateFirstT_self
      (fun tr => { tr with ownerId := some p, troops := attackMoveCount rng q to_ })
      (fun _ => rfl) (attackM3 rng s.map f t q to_) t
      { to_ with troops := to_.troops - (attackDLoss rng q to_ : ℚ) } hm3t
  have htt : attackToTroops2 rng s.map f t q to_ =
      to_.troops - (attackDLoss rng q to_ : ℚ) := by
    unfold attackToTroops2
    rw [hm2t]
    rfl
  -- the sums along the update chain
  have hs1 : ownedTroopSum (attackM1 rng s.map f q to_) =
      ownedTroopSum s.map - (attackALoss rng q to_ : ℚ) := by
    unfold ownedTroopSum attackM1
    rw [map_sum_updateFirstT _ _ s.map f from_ hf]
    simp [hfromSome]
  have hs2 : ownedTroopSum (attackM2 rng s.map f t q to_) =
      ownedTroopSum s.map - (attackALoss rng q to_ : ℚ) - (attackDLoss rng q to_ : ℚ) := by
    unfold ownedTroopSum attackM2
    rw [map_sum_updateFirstT _ _ _ t to_ hm1t]
    have := hs1
    unfold ownedTroopSum at this
    rw [this]
    simp [htoSome]
  have hs3 : ownedTroopSum (attackM3 rng s.map f t q to_) =
      ownedTroopSum s.map - (attackALoss rng q to_ : ℚ) - (attackDLoss rng q to_ : ℚ)
        - attackMoveCount rng q to_ := by
    unfold ownedTroopSum attackM3
    rw [map_sum_updateFirstT _ _ _ f
      { from_ with troops := from_.troops - (attackALoss rng q to_ : ℚ) } hm2f]
    have := hs2
    unfold ownedTroopSum at this
    rw [this]
    simp [hfromSome]
  have hs4 : ownedTroopSum (attackM4 rng s.map p f t q to_) =
      ownedTroopSum s.map - (attackALoss rng q to_ : ℚ) - to_.troops := by
    unfold ownedTroopSum attackM4
    rw [map_sum_updateFirstT _ _ _ t
      { to_ with troops := to_.troops - (attackDLoss rng q to_ : ℚ) } hm3t]
    have := hs3
    unfold ownedTroopSum at this
    rw [this]
    simp [htoSome]
    ring
  have haL0 : (0 : ℚ) ≤ (attackALoss rng q to_ : ℚ) := by positivity
  have hdL0 : (0 : ℚ) ≤ (attackDLoss rng q to_ : ℚ) := by positivity
  by_cases hcq : attackToTroops2 rng s.map f t q to_ ≤ 0
  · unfold attackResolve
    rw [if_pos hcq]
    refine ⟨?_, ?_, ?_⟩
    · show ownedTroopSum (attackM4 rng s.map p f t q to_) ≤ ownedTroopSum s.map
      rw [hs4]
      linarith
    · intro _
      show ownedTroopSum (attackM4 rng s.map p f t q to_) < ownedTroopSum s.map
      rw [hs4]
      linarith
    · intro _
      refine ⟨q, hc, ?_⟩
      show ((attackM4 rng s.map p f t q to_).find? (fun x => x.id = t)).map
        Territory.troops = _
      rw [hm4t, attackMoveCount_eq]
      rfl
  · unfold attackResolve
    rw [if_neg hcq]
    have hloss1 : 1 ≤ attackALoss rng q to_ + attackDLoss rng q to_ ∨
        attackALoss rng q to_ + attackDLoss rng q to_ = 0 := by omega
    refine ⟨?_, ?_, ?_⟩
    · show ownedTroopSum (attackM2 rng s.map f t q to_) ≤ ownedTroopSum s.map
      rw [hs2]
      linarith
    · intro hpos
      show ownedTroopSum (attackM2 rng s.map f t q to_) < ownedTroopSum s.map
      rw [hs2]
      have hposq : (1 : ℚ) ≤ (attackALoss rng q to_ : ℚ) + (attackDLoss rng q to_ : ℚ) := by
        have : 1 ≤ attackALoss rng q to_ + attackDLoss rng q to_ := hpos
        exact_mod_cast this
      linarith
    · intro hcon
      exact absurd hcon (by simp)

/-- C4 witness: the amended theorem applied to the neutral-conquest attack
in `stNeu` (strict decrease of the any-owner sum). -/
theorem c4_owned_sum_witness :
    ∃ out, attack rngWin stNeu "A" "t1" "t2" (JSNum.num 1) = some out ∧
      ownedTroopSum out.1.map < ownedTroopSum stNeu.map :=
  ⟨_, rfl, (c4_owned_sum rngWin stNeu "A" "t1" "t2" (JSNum.num 1) _
    (by decide) (by decide) rfl).2.1 (by decide)⟩

/-! ## BFS correctness (fortify connectivity) -/

theorem pushNbrs_visited_mono (o : List String) (ns : List String) :
    ∀ visited queue, ∀ x ∈ visited, x ∈ (pushNbrs o visited queue ns).1 := by
  induction ns with
  | nil => intro visited queue x hx; exact hx
  | cons n ns ih =>
      intro visited queue x hx
      unfold pushNbrs
      by_cases hc : n ∈ o ∧ ¬ n ∈ visited
      · rw [if_pos hc]
        exact ih _ _ x (List.mem_cons_of_mem n hx)
      · rw [if_neg hc]
        exact ih _ _ x hx

theorem pushNbrs_queue_mono (o : List String) (ns : List String) :
    ∀ visited queue, ∀ x ∈ queue, x ∈ (pushNbrs o visited queue ns).2 := by
  induction ns with
  | nil => intro visited queue x hx; exact hx
  | cons n ns ih =>
      intro visited queue x hx
      unfold pushNbrs
      by_cases hc : n ∈ o ∧ ¬ n ∈ visited
      · rw [if_pos hc]
        exact ih _ _ x (List.mem_append_left _ hx)
      · rw [if_neg hc]
        exact ih _ _ x hx

theorem pushNbrs_mem_queue (o : List String) (ns : List String) :
    ∀ visited queue, ∀ x ∈ (pushNbrs o visited queue ns).2,
      x ∈ queue ∨ (x ∈ ns ∧ x ∈ o) := by
  induction ns with
  | nil => intro visited queue x hx; exact Or.inl hx
  | cons n ns ih =>
      intro visited queue x hx
      unfold pushNbrs at hx
      by_cases hc : n ∈ o ∧ ¬ n ∈ visited
      · rw [if_pos hc] at hx
        rcases ih _ _ x hx with hq | ⟨hns, ho⟩
        · rcases List.mem_append.mp hq with hq2 | hq2
          · exact Or.inl hq2
          · have : x = n := by simpa using hq2
            exact Or.inr ⟨this ▸ List.mem_cons_self n ns, this ▸ hc.1⟩
        · exact Or.inr ⟨List.mem_cons_of_mem n hns, ho⟩
      · rw [if_neg hc] at hx
        rcases ih _ _ x hx with hq | ⟨hns, ho⟩
        · exact Or.inl hq
        · exact Or.inr ⟨List.mem_cons_of_mem n hns, ho⟩

theorem pushNbrs_covers (o : List String) (ns : List String) :
    ∀ visited queue, ∀ n ∈ ns, n ∈ o → n ∈ (pushNbrs o visited queue ns).1 := by
  induction ns with
  | nil => intro visited queue n hn; exact absurd hn (List.not_mem_nil n)
  | cons m ns ih =>
      intro visited queue n hn ho
      unfold pushNbrs
      rcases List.mem_cons.mp hn with rfl | hn2
      · by_cases hc : n ∈ o ∧ ¬ n ∈ visited
        · rw [if_pos hc]
          exact pushNbrs_visited_mono o ns _ _ n (List.mem_cons_self n visited)
        · rw [if_neg hc]
          have hnv : n ∈ visited := by
            by_contra hnv
            exact hc ⟨ho, hnv⟩
          exact pushNbrs_visited_mono o ns _ _ n hnv
      · by_cases hc : m ∈ o ∧ ¬ m ∈ visited
        · rw [if_pos hc]
          exact ih _ _ n hn2 ho
        · rw [if_neg hc]
          exact ih _ _ n hn2 ho

theorem pushNbrs_mem_visited (o : List String) (ns : List String) :
    ∀ visited queue, ∀ x ∈ (pushNbrs o visited queue ns).1,
      x ∈ visited ∨ (x ∈ o ∧ x ∈ (pushNbrs o visited queue ns).2) := by
  induction ns with
  | nil => intro visited queue x hx; exact Or.inl hx
  | cons n ns ih =>
      intro visited queue x hx
      unfold pushNbrs at hx ⊢
      by_cases hc : n ∈ o ∧ ¬ n ∈ visited
      · rw [if_pos hc] at hx ⊢
        rcases ih _ _ x hx with hv | ⟨ho, hq⟩
        · rcases List.mem_cons.mp hv with rfl | hv2
          · refine Or.inr ⟨hc.1, ?_⟩
            exact pushNbrs_queue_mono o ns _ _ x (List.mem_append_right _ (by simp))
          · exact Or.inl hv2
        · exact Or.inr ⟨ho, hq⟩
      · rw [if_neg hc] at hx ⊢
        exact ih _ _ x hx

theorem pushNbrs_measure (o : List String) (ns : List String) :
    ∀ visited queue,
      2 * ((o.toFinset \ (pushNbrs o visited queue ns).1.toFinset).card) +
          (pushNbrs o visited queue ns).2.length ≤
        2 * ((o.toFinset \ visited.toFinset).card) + queue.length := by
  induction ns with
  | nil => intro visited queue; exact le_refl _
  | cons n ns ih =>
      intro visited queue
      unfold pushNbrs
      by_cases hc : n ∈ o ∧ ¬ n ∈ visited
      · rw [if_pos hc]
        have hmem : n ∈ o.toFinset \ visited.toFinset := by
          rw [Finset.mem_sdiff]
          exact ⟨List.mem_toFinset.mpr hc.1, fun hco => hc.2 (List.mem_toFinset.mp hco)⟩
        have hcard1 : 1 ≤ (o.toFinset \ visited.toFinset).card :=
          Finset.card_pos.mpr ⟨n, hmem⟩
        have herase : o.toFinset \ (n :: visited).toFinset =
            (o.toFinset \ visited.toFinset).erase n := by
          rw [List.toFinset_cons, Finset.sdiff_insert]
        have hcard : (o.toFinset \ (n :: visited).toFinset).card =
            (o.toFinset \ visited.toFinset).card - 1 := by
          rw [herase, Finset.card_erase_of_mem hmem]
        have := ih (n :: visited) (queue ++ [n])
        rw [hcard, List.length_append] at this
        simp only [List.length_singleton] at this
        omega
      · rw [if_neg hc]
        exact ih visited queue

theorem reach_mem_closed (step : String → String → Prop) (V : List String)
    (hcl : ∀ v ∈ V, ∀ y, step v y → y ∈ V) (a b : String)
    (h : Relation.ReflTransGen step a b) (ha : a ∈ V) : b ∈ V := by
  induction h with
  | refl => exact ha
  | tail _ hbc ih => exact hcl _ ih _ hbc

theorem bfsLoop_false (o : List String) (m : List Territory) (toId : String) :
    ∀ (fuel : ℕ) (queue visited : List String),
      2 * ((o.toFinset \ visited.toFinset).card) + queue.length ≤ fuel →
      (toId ∈ visited → toId ∈ queue) →
      (∀ v ∈ visited, ¬ v ∈ queue → ∀ y, y ∈ neighborsOf m v → y ∈ o → y ∈ visited) →
      bfsLoop o m toId fuel queue visited = false →
      ∀ v ∈ visited,
        ¬ Relation.ReflTransGen (fun x y => y ∈ neighborsOf m x ∧ y ∈ o) v toId := by
  intro fuel
  induction fuel with
  | zero =>
      intro queue visited hμ hto hcl _ v hv hreach
      have hq : queue = [] := List.length_eq_zero.mp (by omega)
      subst hq
      have hclosed : ∀ a ∈ visited, ∀ y,
          (fun x y => y ∈ neighborsOf m x ∧ y ∈ o) a y → y ∈ visited :=
        fun a ha y hy => hcl a ha (by simp) y hy.1 hy.2
      have : toId ∈ visited := reach_mem_closed _ visited hclosed v toId hreach hv
      simpa using hto this
  | succ n ih =>
      intro queue visited hμ hto hcl hfalse v hv hreach
      match queue with
      | [] =>
          have hclosed : ∀ a ∈ visited, ∀ y,
              (fun x y => y ∈ neighborsOf m x ∧ y ∈ o) a y → y ∈ visited :=
            fun a ha y hy => hcl a ha (by simp) y hy.1 hy.2
          have : toId ∈ visited := reach_mem_closed _ visited hclosed v toId hreach hv
          simpa using hto this
      | c :: rest =>
          unfold bfsLoop at hfalse
          by_cases hct : c = toId
          · rw [if_pos hct] at hfalse
            exact absurd hfalse (by simp)
          · rw [if_neg hct] at hfalse
            have hμ' : 2 * ((o.toFinset \
                  (pushNbrs o visited rest (neighborsOf m c)).1.toFinset).card) +
                (pushNbrs o visited rest (neighborsOf m c)).2.length ≤ n := by
              have hstep := pushNbrs_measure o (neighborsOf m c) visited rest
              rw [List.length_cons] at hμ
              omega
            have hto' : toId ∈ (pushNbrs o visited rest (neighborsOf m c)).1 →
                toId ∈ (pushNbrs o visited rest (neighborsOf m c)).2 := by
              intro hx
              rcases pushNbrs_mem_visited o (neighborsOf m c) visited rest toId hx with
                hxv | ⟨-, hxq⟩
              · have hmem := hto hxv
                rcases List.mem_cons.mp hmem with heq | hmem2
                · exact absurd heq.symm hct
                · exact pushNbrs_queue_mono o (neighborsOf m c) visited rest toId hmem2
              · exact hxq
            have hcl' : ∀ w ∈ (pushNbrs o visited rest (neighborsOf m c)).1,
                ¬ w ∈ (pushNbrs o visited rest (neighborsOf m c)).2 →
                ∀ y, y ∈ neighborsOf m w → y ∈ o →
                  y ∈ (pushNbrs o visited rest (neighborsOf m c)).1 := by
              intro w hwP hwq y hyn hyo
              rcases pushNbrs_mem_visited o (neighborsOf m c) visited rest w hwP with
                hwv | ⟨-, hwq2⟩
              · by_cases hwc : w = c
                · subst hwc
                  exact pushNbrs_covers o (neighborsOf m w) visited rest y hyn hyo
                · have hwnotq : ¬ w ∈ c :: rest := by
                    intro hwq3
                    rcases List.mem_cons.mp hwq3 with heq | hmem2
                    · exact hwc heq
                    · exact hwq
                        (pushNbrs_queue_mono o (neighborsOf m c) visited rest w hmem2)
                  exact pushNbrs_visited_mono o (neighborsOf m c) visited rest y
                    (hcl w hwv hwnotq y hyn hyo)
              · exact absurd hwq2 hwq
            exact ih (pushNbrs o visited rest (neighborsOf m c)).2
              (pushNbrs o visited rest (neighborsOf m c)).1 hμ' hto' hcl' hfalse v
              (pushNbrs_visited_mono o (neighborsOf m c) visited rest v hv) hreach

theorem bfsLoop_true (o : List String) (m : List Territory) (toId : String) :
    ∀ (fuel : ℕ) (queue visited : List String) (fromId : String),
      (∀ x ∈ queue,
        Relation.ReflTransGen (fun x y => y ∈ neighborsOf m x ∧ y ∈ o) fromId x) →
      bfsLoop o m toId fuel queue visited = true →
      Relation.ReflTransGen (fun x y => y ∈ neighborsOf m x ∧ y ∈ o) fromId toId := by
  intro fuel
  induction fuel with
  | zero =>
      intro queue visited fromId _ htrue
      exact absurd htrue (by simp [bfsLoop])
  | succ n ih =>
      intro queue visited fromId hq htrue
      match queue with
      | [] => exact absurd htrue (by simp [bfsLoop])
      | c :: rest =>
          unfold bfsLoop at htrue
          by_cases hct : c = toId
          · exact hct ▸ hq c (List.mem_cons_self c rest)
          · rw [if_neg hct] at htrue
            refine ih _ _ fromId ?_ htrue
            intro x hx
            rcases pushNbrs_mem_queue o (neighborsOf m c) visited rest x hx with
              hxr | ⟨hxn, hxo⟩
            · exact hq x (List.mem_cons_of_mem c hxr)
            · exact Relation.ReflTransGen.tail (hq c (List.mem_cons_self c rest)) ⟨hxn, hxo⟩

/-- The source's BFS decides exactly the existence of a path through the
player's owned territories. -/
theorem isConnected_iff (s : GameState) (p f t : String) :
    isConnected s p f t = true ↔ OwnedConnected s.map p f t := by
  unfold isConnected OwnedConnected
  by_cases hft : f ∈ ownedIdsOf s.map p ∧ t ∈ ownedIdsOf s.map p
  · rw [if_pos hft]
    constructor
    · intro htrue
      refine ⟨hft.1, hft.2, ?_⟩
      refine bfsLoop_true (ownedIdsOf s.map p) s.map t (2 * s.map.length + 1)
        [f] [f] f ?_ htrue
      intro x hx
      have : x = f := by simpa using hx
      exact this ▸ Relation.ReflTransGen.refl
    · rintro ⟨-, -, hreach⟩
      by_contra hfalse
      rw [Bool.not_eq_true] at hfalse
      have hμ0 : 2 * (((ownedIdsOf s.map p).toFinset \ ([f].toFinset)).card) +
          ([f] : List String).length ≤ 2 * s.map.length + 1 := by
        have hcard : ((ownedIdsOf s.map p).toFinset \ ([f].toFinset)).card ≤
            (ownedIdsOf s.map p).toFinset.card :=
          Finset.card_le_card Finset.sdiff_subset
        have h2 : (ownedIdsOf s.map p).toFinset.card ≤ (ownedIdsOf s.map p).length :=
          List.toFinset_card_le _
        have h3 : (ownedIdsOf s.map p).length ≤ s.map.length := by
          unfold ownedIdsOf
          rw [List.length_map]
          exact List.length_filter_le _ _
        simp only [List.length_singleton]
        omega
      exact bfsLoop_false (ownedIdsOf s.map p) s.map t (2 * s.map.length + 1)
        [f] [f] hμ0 (fun hx => hx)
        (fun v hv hvq _ _ _ => absurd hv hvq) hfalse f (by simp)
        (by simpa [ownedStep] using hreach)
  · rw [if_neg hft]
    constructor
    · intro hfalse
      exact absurd hfalse (by simp)
    · rintro ⟨hf1, ht1, -⟩
      exact absurd ⟨hf1, ht1⟩ hft

/-! ## C8: fortify -/

theorem fortifyMove_ge_one (c : JSNum) (mc : ℚ) (h : fortifyMove c = JSNum.num mc) :
    1 ≤ mc := by
  cases c with
  | nan =>
      have : mc = max 1 1 := by
        simpa [fortifyMove, jsOr, JSNum.truthy, jsMax1] using h.symm
      rw [this]
      norm_num
  | posInf =>
      exact absurd h (by simp [fortifyMove, jsOr, JSNum.truthy, jsMax1])
  | negInf =>
      have : mc = 1 := by
        simpa [fortifyMove, jsOr, JSNum.truthy, jsMax1] using h.symm
      rw [this]
  | num q =>
      by_cases hq : q = 0
      · have : mc = max 1 1 := by
          simpa [fortifyMove, jsOr, JSNum.truthy, hq, jsMax1] using h.symm
        rw [this]
        norm_num
      · have : mc = max 1 q := by
          simpa [fortifyMove, jsOr, JSNum.truthy, hq, jsMax1] using h.symm
        rw [this]
        exact le_max_left 1 q

/-- C8 counterexample: the claim's "leaving at least 1 troop in the source"
fails for a fractional count: fortifying 5/2 out of a 3-troop source
succeeds and leaves only 1/2 a troop behind. -/
theorem c8_counterexample :
    (fortify oshId stFortify "A" "t1" "t2" (JSNum.num (5 / 2))).isSome = true ∧
    ((fortify oshId stFortify "A" "t1" "t2" (JSNum.num (5 / 2))).bind
        (fun s' => s'.getTerritory "t1")).map Territory.troops = some (1 / 2) ∧
    ¬ (1 : ℚ) ≤ 1 / 2 := by decide

/-- C8 (amended): a successful fortify happens only in phase TURN_FORTIFY,
for the current player, on two distinct territories both owned by them and
connected by a path running exclusively through that player's territories
(the claim's failure on enemy-blocked paths is this necessity); it moves a
coerced count `mc ≥ 1` with `mc < from.troops`, so the source retains a
*positive* amount (at least 1 only when the count is integral), and the
result state is exactly `nextTurn` of the moved state. -/
theorem c8_fortify (osh : List Card → List Card) (s : GameState) (p f t : String)
    (c : JSNum) (s' : GameState) (h : fortify osh s p f t c = some s') :
    s.phase = "TURN_FORTIFY" ∧ s.getCurrentPlayer.map Player.id = some p ∧ f ≠ t ∧
    ∃ from_ to_, s.getTerritory f = some from_ ∧ s.getTerritory t = some to_ ∧
      from_.ownerId = some p ∧ to_.ownerId = some p ∧
      OwnedConnected s.map p f t ∧
      ∃ mc : ℚ, fortifyMove c = JSNum.num mc ∧ 1 ≤ mc ∧ mc < from_.troops ∧
        0 < from_.troops - mc ∧ s' = nextTurn osh (fortifyMoved s f t mc) := by
  unfold fortify at h
  split at h
  · exact absurd h (by simp)
  rename_i hw
  split at h
  · exact absurd h (by simp)
  rename_i hph
  split at h
  · exact absurd h (by simp)
  rename_i hcur
  split at h
  · exact absurd h (by simp)
  rename_i hids
  push_neg at hids
  split at h
  case _ from_ to_ hf ht =>
    split at h
    · exact absurd h (by simp)
    rename_i hown
    push_neg at hown
    split at h
    · exact absurd h (by simp)
    rename_i hconn
    rw [Bool.not_eq_false] at hconn
    cases hmc : fortifyMove c with
    | nan => rw [hmc] at h; exact absurd h (by simp)
    | posInf => rw [hmc] at h; exact absurd h (by simp)
    | negInf => rw [hmc] at h; exact absurd h (by simp)
    | num mc =>
    rw [hmc] at h
    rw [show (match JSNum.num mc with
        | JSNum.num mc =>
          if from_.troops ≤ mc then none else some (nextTurn osh (fortifyMoved s f t mc))
        | _ => (none : Option GameState)) =
      (if from_.troops ≤ mc then none
       else some (nextTurn osh (fortifyMoved s f t mc))) from rfl] at h
    split at h
    · exact absurd h (by simp)
    rename_i htr
    rw [not_le] at htr
    have hmc1 : 1 ≤ mc := fortifyMove_ge_one c mc hmc
    refine ⟨not_not.mp hph, not_ne_iff.mp hcur, hids.2.2, from_, to_, hf, ht,
      hown.1, hown.2, (isConnected_iff s p f t).mp hconn, mc, hmc.symm.trans hmc,
      hmc1, htr, by linarith, ?_⟩
    exact (Option.some.injEq _ _ ▸ h).symm
  all_goals exact absurd h (by simp)

/-- C8 witness: the amended theorem applied to a successful 1-troop fortify
between A's adjacent territories in `stFortify`; the extracted facts include
the owned-path connectivity. -/
theorem c8_fortify_witness :
    ∃ s', fortify oshId stFortify "A" "t1" "t2" (JSNum.num 1) = some s' ∧
      OwnedConnected stFortify.map "A" "t1" "t2" := by
  refine ⟨_, rfl, ?_⟩
  have H := c8_fortify oshId stFortify "A" "t1" "t2" (JSNum.num 1) _ rfl
  exact H.2.2.2.choose_spec.choose_spec.2.2.2.2.1

/-! ## C9: the owned-territory troops invariant -/

/-- C9: the invariant "an owned territory always has troops ≥ 1" is the
spec's stated intent, but fortify violates it: with a fractional count 5/2
from a 3-troop source, the call succeeds and leaves the still-owned source
territory at 1/2 < 1 troops. -/
theorem c9_fortify_invariant_bug :
    ((fortify oshId stFortify "A" "t1" "t2" (JSNum.num (5 / 2))).bind
        (fun s' => s'.getTerritory "t1")).map
      (fun tr => (tr.ownerId, tr.troops)) = some (some "A", 1 / 2) ∧
    ((1 : ℚ) / 2) < 1 := by decide

end RiskGame
